import Mathlib

/-!
Verification development for the LampCodeReview file-ingestion, prompt-assembly
and response-streaming pipeline.  Python functions from `utils.py`,
`reviewer.py` and `openrouter_client.py` are shallowly embedded as executable
Lean definitions over `String` (lists of unicode code points, matching Python
`str`) and `List Nat` (byte strings).  The theorems at the end of the file
settle the specification claims against these definitions.
-/

/-! ## Python string primitives

Python `str` values are modelled by Lean `String` (a list of unicode code
points, which is exactly Python's notion of string length and indexing).
The helpers below reimplement the Python string operations used by the
source, operating on the underlying `List Char`. -/

/-- `listIsPre a b` decides whether `a` is a (not necessarily proper) leading
segment of `b`. -/
def listIsPre : List Char → List Char → Bool
  | [], _ => true
  | _ :: _, [] => false
  | a :: as, b :: bs => a = b && listIsPre as bs

/-- `listHasSub needle hay` decides Python's substring test `needle in hay`. -/
def listHasSub (needle : List Char) : List Char → Bool
  | [] => listIsPre needle []
  | c :: t => if listIsPre needle (c :: t) then true else listHasSub needle t

/-- Python's `needle in hay` on strings. -/
def pyIn (needle hay : String) : Bool := listHasSub needle.data hay.data

/-- Python's `s.startswith(pre)`. -/
def pyStartsWith (s pre : String) : Bool := listIsPre pre.data s.data

/-- Python's `s.endswith(suf)`. -/
def pyEndsWith (s suf : String) : Bool := listIsPre suf.data.reverse s.data.reverse

/-- Python's `len(s)` (number of code points). -/
def pyLen (s : String) : Nat := s.data.length

/-- Python's `s[:n]` (first `n` code points). -/
def pyTake (s : String) (n : Nat) : String := String.mk (s.data.take n)

/-- Python's `s[n:]` (drop the first `n` code points). -/
def pyDrop (s : String) (n : Nat) : String := String.mk (s.data.drop n)

/-- Split a character list at every occurrence of `sep` (Python
`s.split(sep)` for a one-character separator: empty pieces are kept). -/
def splitCharAux (sep : Char) : List Char → List Char → List (List Char)
  | [], acc => [acc.reverse]
  | c :: cs, acc =>
    if c = sep then acc.reverse :: splitCharAux sep cs []
    else splitCharAux sep cs (c :: acc)

/-- Python's `s.split(sep)` for a single-character separator. -/
def pySplitChar (s : String) (sep : Char) : List String :=
  (splitCharAux sep s.data []).map String.mk

/-- Python's `sep.join(parts)` for a single-character separator. -/
def joinWithChar (sep : Char) : List String → String
  | [] => ""
  | [p] => p
  | p :: ps => p ++ String.mk [sep] ++ joinWithChar sep ps

/-- Python's `sep.join(parts)` for a string separator. -/
def joinWith (sep : String) : List String → String
  | [] => ""
  | [p] => p
  | p :: ps => p ++ sep ++ joinWith sep ps

/-- Concatenation of a list of strings (`"".join(parts)`). -/
def strConcat : List String → String
  | [] => ""
  | p :: ps => p ++ strConcat ps

/-- One step of Python's `str.replace`: replace every non-overlapping
occurrence of `t0 :: ts` by `repl`, scanning left to right.  The fuel is
an upper bound on the input length (each step consumes at least one
character, so the zero-fuel branch is unreachable from `pyReplace`). -/
def listReplace (t0 : Char) (ts repl : List Char) : Nat → List Char → List Char
  | _, [] => []
  | 0, l => l
  | fuel + 1, c :: cs =>
    if listIsPre (t0 :: ts) (c :: cs) then
      repl ++ listReplace t0 ts repl fuel (cs.drop ts.length)
    else
      c :: listReplace t0 ts repl fuel cs

/-- Python's `s.replace(target, repl)` (for the non-empty targets the source
uses; an empty target returns the string unchanged to keep the model total). -/
def pyReplace (s target repl : String) : String :=
  match target.data with
  | [] => s
  | t0 :: ts => String.mk (listReplace t0 ts repl.data s.data.length s.data)

/-- Python's `c.lower()` for a single character (ASCII case folding; the
filenames and extensions the source compares are ASCII). -/
def pyCharLower (c : Char) : Char := c.toLower

/-- Python's `s.lower()`. -/
def pyLower (s : String) : String := String.mk (s.data.map pyCharLower)

/-- The white-space set of Python's default `str.strip()` /
`str.isspace()`. -/
def isPySpace (c : Char) : Bool :=
  c = ' ' || c = '\t' || c = '\n' || c.toNat = 0x0b || c.toNat = 0x0c ||
  c = '\r' || c.toNat = 0x1c || c.toNat = 0x1d || c.toNat = 0x1e ||
  c.toNat = 0x1f || c.toNat = 0x85 || c.toNat = 0xa0 || c.toNat = 0x1680 ||
  (0x2000 ≤ c.toNat && c.toNat ≤ 0x200a) || c.toNat = 0x2028 ||
  c.toNat = 0x2029 || c.toNat = 0x202f || c.toNat = 0x205f ||
  c.toNat = 0x3000

/-- Python's `s.strip()` with no arguments. -/
def pyStrip (s : String) : String :=
  String.mk (((s.data.dropWhile isPySpace).reverse.dropWhile isPySpace).reverse)

/-- The decimal digit character for `n % 10`. -/
def natDigitChar (n : Nat) : Char := Char.ofNat (48 + n % 10)

/-- Accumulator-style decimal rendering of a natural number.  The fuel is
an upper bound on the number of digits minus one (each step divides `n`
by ten); the zero-fuel branch emits the remaining low digit and is
reachable only with `n < 10` when called from `natRepr`. -/
def natReprAux : Nat → Nat → List Char → List Char
  | 0, n, acc => natDigitChar n :: acc
  | fuel + 1, n, acc =>
    if n < 10 then natDigitChar n :: acc
    else natReprAux fuel (n / 10) (natDigitChar n :: acc)

/-- Python's `str(n)` for a non-negative integer. -/
def natRepr (n : Nat) : String := String.mk (natReprAux n n [])

/-- Split a reversed digit list into groups of three (least significant
group first). -/
def chunk3 : List Char → List (List Char)
  | [] => []
  | [a] => [[a]]
  | [a, b] => [[a, b]]
  | a :: b :: c :: rest => [a, b, c] :: chunk3 rest

/-- Python's `f"{n:,}"`: decimal rendering with thousands separators. -/
def fmtComma (n : Nat) : String :=
  let digits := natReprAux n n []
  let groups := chunk3 digits.reverse
  String.mk (joinWithChar ',' (groups.map String.mk)).data.reverse

/-! ## Configuration constants (`config.py`) -/

/-- `config.MAX_TOTAL_SIZE = 50 * 1024 * 1024`. -/
def MAX_TOTAL_SIZE : Nat := 50 * 1024 * 1024

/-- `config.MAX_FILE_SIZE = 10 * 1024 * 1024`. -/
def MAX_FILE_SIZE : Nat := 10 * 1024 * 1024

/-- `config.SUPPORTED_EXTS` (already lower-case, so `SUPPORTED_EXTS_SET`
contains the same strings). -/
def SUPPORTED_EXTS : List String :=
  [".py", ".js", ".java", ".ts", ".go", ".rb", ".php", ".cs", ".c", ".cpp",
   ".h", ".hpp", ".html", ".htm", ".css", ".sql", ".yaml", ".yml", ".json",
   ".xml", ".md", ".sh", ".bat", ".rs", ".ps1"]

/-- `reviewer.MAX_REQUEST_TOKENS`. -/
def MAX_REQUEST_TOKENS : Nat := 200000

/-! ## Token estimation and validation (`reviewer.validate_and_estimate_tokens`)

`int(len(prompt) * 0.25)` is modelled by `len / 4`: multiplication of a
Python int by the exact binary float `0.25` rounds to the value whose
truncation is `len // 4`, for every length.  Likewise
`MAX_REQUEST_TOKENS * 0.75` is exactly `150000.0`, so the strict float
comparison agrees with the integer comparison against
`MAX_REQUEST_TOKENS * 3 / 4`. -/

def validate_and_estimate_tokens (user_prompt : String) : Bool × String × Nat :=
  if user_prompt = "" then
    (false, "Prompt is empty", 0)
  else
    let estimated_tokens := pyLen user_prompt / 4
    if estimated_tokens > MAX_REQUEST_TOKENS then
      (false,
       "Request too large: ~" ++ natRepr estimated_tokens ++ " tokens (limit: " ++
         natRepr MAX_REQUEST_TOKENS ++ "). Try uploading fewer or smaller files.",
       estimated_tokens)
    else if estimated_tokens > MAX_REQUEST_TOKENS * 3 / 4 then
      (true,
       "⚠️ Large request: ~" ++ natRepr estimated_tokens ++ " tokens (limit: " ++
         natRepr MAX_REQUEST_TOKENS ++ "). Response may be truncated.",
       estimated_tokens)
    else
      (true, "✅ Request size OK: ~" ++ natRepr estimated_tokens ++ " tokens",
       estimated_tokens)

/-! ## UTF-8 (Python `bytes.decode('utf-8')`, strict errors)

Byte strings are modelled as `List Nat` (each entry a byte value).  The
decoder below is the strict UTF-8 decoder: overlong encodings, surrogate
code points, values beyond U+10FFFF, and truncated sequences are all
rejected, exactly as CPython's strict `.decode('utf-8')`. -/

/-- Decode one UTF-8 sequence from the head of a byte list (strict):
the code point and the remaining bytes, or `none` on malformed input. -/
def utf8Step : List Nat → Option (Nat × List Nat)
  | [] => none
  | b :: bs =>
    if b < 0x80 then some (b, bs)
    else if 0xC2 ≤ b ∧ b ≤ 0xDF then
      match bs with
      | b2 :: bs2 =>
        if 0x80 ≤ b2 ∧ b2 ≤ 0xBF then
          some ((b - 0xC0) * 0x40 + (b2 - 0x80), bs2)
        else none
      | [] => none
    else if 0xE0 ≤ b ∧ b ≤ 0xEF then
      match bs with
      | b2 :: b3 :: bs3 =>
        if ((b = 0xE0 → 0xA0 ≤ b2) ∧ (b = 0xED → b2 ≤ 0x9F) ∧
            0x80 ≤ b2 ∧ b2 ≤ 0xBF) ∧ 0x80 ≤ b3 ∧ b3 ≤ 0xBF then
          some ((b - 0xE0) * 0x1000 + (b2 - 0x80) * 0x40 + (b3 - 0x80), bs3)
        else none
      | _ => none
    else if 0xF0 ≤ b ∧ b ≤ 0xF4 then
      match bs with
      | b2 :: b3 :: b4 :: bs4 =>
        if ((b = 0xF0 → 0x90 ≤ b2) ∧ (b = 0xF4 → b2 ≤ 0x8F) ∧
            0x80 ≤ b2 ∧ b2 ≤ 0xBF) ∧ 0x80 ≤ b3 ∧ b3 ≤ 0xBF ∧
           0x80 ≤ b4 ∧ b4 ≤ 0xBF then
          some ((b - 0xF0) * 0x40000 + (b2 - 0x80) * 0x1000 +
                (b3 - 0x80) * 0x40 + (b4 - 0x80), bs4)
        else none
      | _ => none
    else none

/-- Fueled decoding loop: each step consumes at least one byte, so fuel
equal to the input length never runs out. -/
def utf8DecodeAux : Nat → List Nat → Option (List Nat)
  | _, [] => some []
  | 0, _ :: _ => none
  | fuel + 1, b :: bs =>
    match utf8Step (b :: bs) with
    | some (cp, rest) => (utf8DecodeAux fuel rest).map (cp :: ·)
    | none => none

/-- Strict UTF-8 decoding of a byte list into unicode code points;
`none` models `UnicodeDecodeError`. -/
def utf8Decode (l : List Nat) : Option (List Nat) := utf8DecodeAux l.length l

/-- A unicode scalar value: what Python allows in a `str` that is encodable
as UTF-8 (no surrogates, at most U+10FFFF). -/
def ValidCp (n : Nat) : Prop := n < 0x110000 ∧ ¬ (0xD800 ≤ n ∧ n ≤ 0xDFFF)

instance (n : Nat) : Decidable (ValidCp n) := by unfold ValidCp; infer_instance

/-- UTF-8 encoding of one code point. -/
def utf8EncodeCp (n : Nat) : List Nat :=
  if n < 0x80 then [n]
  else if n < 0x800 then [0xC0 + n / 0x40, 0x80 + n % 0x40]
  else if n < 0x10000 then
    [0xE0 + n / 0x1000, 0x80 + n / 0x40 % 0x40, 0x80 + n % 0x40]
  else
    [0xF0 + n / 0x40000, 0x80 + n / 0x1000 % 0x40, 0x80 + n / 0x40 % 0x40,
     0x80 + n % 0x40]

/-- UTF-8 encoding of a list of code points. -/
def utf8Encode (cps : List Nat) : List Nat := (cps.map utf8EncodeCp).flatten

/-- Reassemble a Python `str` from decoded code points. -/
def cpsToString (cps : List Nat) : String := String.mk (cps.map Char.ofNat)

/-- Python's `s.encode('utf-8')`. -/
def strToBytes (s : String) : List Nat := utf8Encode (s.data.map Char.toNat)

/-! ## Data model of the ingestor

`UploadedItem` models one element of the `uploaded_files` list: a `name`,
the `size` attribute (`none` models a missing attribute, read through
`getattr(uploaded_file, 'size', 0)`), and a body.  The body of a plain
file is its raw bytes; an item whose bytes form a valid ZIP archive is
represented structurally by its member list (name, directory flag,
directory-entry size, and content bytes), and `badZip` represents bytes
`zipfile.ZipFile` rejects.  Per-member read errors are not modelled. -/

structure CodeFile where
  filename : String
  content : String
deriving DecidableEq, Repr

structure ZipMember where
  filename : String
  is_dir : Bool
  file_size : Nat
  data : List Nat
deriving DecidableEq, Repr

inductive ItemBody where
  | file (data : List Nat)
  | zipEntries (members : List ZipMember)
  | badZip
deriving DecidableEq, Repr

structure UploadedItem where
  name : String
  size : Option Int
  body : ItemBody
deriving DecidableEq, Repr

/-! ## File classification and path sanitisation (`utils.py`) -/

/-- The suffix of `l` starting at the last `'.'`, if any
(Python's `lowercase_name[dot_index:]` after `rfind('.')`). -/
def lastDotSuffix (l : List Char) : Option (List Char) :=
  if l.contains '.' then some ('.' :: (l.reverse.takeWhile (· ≠ '.')).reverse)
  else none

/-- `utils.is_supported_file`. -/
def is_supported_file (filename : String) : Bool :=
  if filename = "" then false
  else
    match lastDotSuffix (pyLower filename).data with
    | none => false
    | some ext => SUPPORTED_EXTS.contains (String.mk ext)

/-- `utils.sanitize_zip_member_path`.  `PurePosixPath(p).parts` discards
empty and `"."` segments; the source filters them again, so segmenting on
`'/'` and filtering is an exact model.  `is_absolute()` holds exactly when
the backslash-normalised path begins with `'/'`. -/
def sanitize_zip_member_path (member_name : String) : Option String × Option String :=
  if member_name = "" then (none, some "invalid path name")
  else
    let normalized := pyReplace member_name "\\" "/"
    if pyStartsWith normalized "/" then (none, some "absolute path")
    else
      let parts := (pySplitChar normalized '/').filter (fun p => p ≠ "" && p ≠ ".")
      if parts = [] then (none, some "empty or hidden path")
      else if parts.contains ".." then (none, some "path traversal")
      else (some (joinWithChar '/' parts), none)

/-! ## Content decoding and validation (`utils._decode_and_validate_content`)

The Python function appends warnings to a shared list; each model function
instead returns the warnings it appends, in order, and callers concatenate
them. -/

def _decode_and_validate_content (raw_content : List Nat) (filename : String) :
    Option String × List String :=
  match utf8Decode raw_content with
  | none =>
    (none, ["⚠️ Could not decode '" ++ filename ++ "' as UTF-8. Skipping."])
  | some cps =>
    let decoded_content := cpsToString cps
    let stripped := pyStrip decoded_content
    if stripped = "" then
      (none,
       ["⚠️ File '" ++ filename ++ "' is empty or contains only whitespace. Skipping."])
    else if pyLen stripped < 10 then
      (none,
       ["⚠️ File '" ++ filename ++ "' is too short for meaningful analysis. Skipping."])
    else (some decoded_content, [])

/-! ## Per-item processing (`utils._process_regular_file`, `utils._process_zip_file`) -/

/-- `utils._process_regular_file`.  A non-`file` body is mapped to the
`IOError` path of the source (warn and skip). -/
def _process_regular_file (item : UploadedItem) (max_file_size : Nat) :
    List CodeFile × List String :=
  if ¬ is_supported_file item.name then ([], [])
  else
    match item.body with
    | .file data =>
      let content := if data.length > max_file_size then data.take max_file_size else data
      let truncWarns :=
        if data.length > max_file_size then
          ["⚠️ File '" ++ item.name ++ "' truncated to " ++
            natRepr (max_file_size / (1024 * 1024)) ++ "MB"]
        else []
      match _decode_and_validate_content content item.name with
      | (some s, ws) => (if s = "" then [] else [⟨item.name, s⟩], truncWarns ++ ws)
      | (none, ws) => ([], truncWarns ++ ws)
    | _ => ([], ["⚠️ Could not read '" ++ item.name ++ "'. Skipping."])

/-- Processing of one ZIP member inside `utils._process_zip_file`'s loop. -/
def processZipMember (m : ZipMember) (max_file_size : Nat) :
    List CodeFile × List String :=
  if m.is_dir then ([], [])
  else
    match sanitize_zip_member_path m.filename with
    | (_, some _) => ([], [])
    | (none, none) => ([], [])
    | (some safe_filename, none) =>
      if m.file_size > max_file_size then
        ([], ["⚠️ Skipping large file in ZIP: " ++ safe_filename ++ " (" ++
               natRepr m.file_size ++ " bytes)"])
      else if ¬ is_supported_file safe_filename || pyStartsWith safe_filename "." then
        ([], [])
      else
        let content := if m.data.length > max_file_size then m.data.take max_file_size else m.data
        let tw :=
          if m.data.length > max_file_size then
            ["⚠️ File '" ++ safe_filename ++ "' truncated to " ++
              natRepr (max_file_size / (1024 * 1024)) ++ "MB"]
          else []
        match _decode_and_validate_content content safe_filename with
        | (some s, ws) => (if s = "" then [] else [⟨safe_filename, s⟩], tw ++ ws)
        | (none, ws) => ([], tw ++ ws)

/-- `utils._process_zip_file`: walk the archive listing in order; a body
that is not a valid archive takes the `BadZipFile` path. -/
def _process_zip_file (item : UploadedItem) (max_file_size : Nat) :
    List CodeFile × List String :=
  match item.body with
  | .zipEntries members =>
    members.foldr
      (fun m acc =>
        let r := processZipMember m max_file_size
        (r.1 ++ acc.1, r.2 ++ acc.2))
      ([], [])
  | _ => ([], ["⚠️ '" ++ item.name ++ "' is not a valid ZIP file. Skipping."])

/-! ## The ingestor loop (`utils.process_uploaded_files`)

The loop threads the `total_size` accumulator; the model returns it as the
third component so that the budget-tracking claims can speak about it. -/

def processFilesLoop : List UploadedItem → Int → List CodeFile × List String × Int
  | [], total_size => ([], [], total_size)
  | uploaded_file :: rest, total_size =>
    let file_size := uploaded_file.size.getD 0
    if file_size ≤ 0 then
      let r := processFilesLoop rest total_size
      (r.1,
       ("⚠️ File '" ++ uploaded_file.name ++ "' has invalid size. Skipping.") :: r.2.1,
       r.2.2)
    else
      let total' := total_size + file_size
      if total' > (MAX_TOTAL_SIZE : Int) then
        ([],
         ["⚠️ Total upload size exceeded " ++ natRepr (MAX_TOTAL_SIZE / (1024 * 1024)) ++
           "MB. Skipping remaining files."],
         total')
      else
        let pr :=
          if pyEndsWith (pyLower uploaded_file.name) ".zip" then
            _process_zip_file uploaded_file MAX_FILE_SIZE
          else
            _process_regular_file uploaded_file MAX_FILE_SIZE
        let r := processFilesLoop rest total'
        (pr.1 ++ r.1, pr.2 ++ r.2.1, r.2.2)

/-- `utils.process_uploaded_files`. -/
def process_uploaded_files (uploaded_files : List UploadedItem) :
    List CodeFile × List String :=
  let r := processFilesLoop uploaded_files 0
  (r.1, r.2.1)

/-! ## JSON values (`json.loads` on streaming payloads)

Acceptance mirrors CPython's default (strict) `json.loads`: raw control
characters below `0x20` inside string literals are rejected, numbers
follow `NUMBER_RE` (`-?(0|[1-9]\d*)(\.\d+)?([eE][+-]?\d+)?`, so a leading
zero matches only `0` and the stray digits then fail at the following
delimiter), and the `allow_nan` default admits `NaN`, `Infinity` and
`-Infinity`.  Integer values are kept as `Int`; a numeral with a fraction
or exponent part (or an `allow_nan` constant) is kept as its matched text
in `numLit` — the claims never inspect numeric values, only acceptance.
`\u` escapes are decoded individually (no surrogate-pair recombination;
an escaped lone surrogate, unrepresentable in a Lean `Char`, decodes to
`Char.ofNat`'s default): the payloads the claims quantify over stay away
from that corner. -/

inductive Json where
  | null
  | bool (b : Bool)
  | num (n : Int)
  | numLit (lit : String)
  | str (s : String)
  | arr (xs : List Json)
  | obj (fields : List (String × Json))

/-- JSON inter-token whitespace. -/
def jsonSkipWs (l : List Char) : List Char :=
  l.dropWhile (fun c => c = ' ' || c = '\t' || c = '\n' || c = '\r')

/-- Hexadecimal digit value. -/
def hexVal (c : Char) : Option Nat :=
  if '0' ≤ c ∧ c ≤ '9' then some (c.toNat - 48)
  else if 'a' ≤ c ∧ c ≤ 'f' then some (c.toNat - 87)
  else if 'A' ≤ c ∧ c ≤ 'F' then some (c.toNat - 55)
  else none

/-- Parse the remainder of a JSON string literal (after the opening quote),
returning its characters and the input following the closing quote. -/
def parseJsonStringAux : Nat → List Char → Option (List Char × List Char)
  | _, [] => none
  | 0, _ => none
  | fuel + 1, c :: cs =>
    if c = '"' then some ([], cs)
    else if c = '\\' then
      match cs with
      | [] => none
      | e :: cs2 =>
        if e = '"' then (parseJsonStringAux fuel cs2).map (fun p => ('"' :: p.1, p.2))
        else if e = '\\' then (parseJsonStringAux fuel cs2).map (fun p => ('\\' :: p.1, p.2))
        else if e = '/' then (parseJsonStringAux fuel cs2).map (fun p => ('/' :: p.1, p.2))
        else if e = 'b' then (parseJsonStringAux fuel cs2).map (fun p => (Char.ofNat 8 :: p.1, p.2))
        else if e = 'f' then (parseJsonStringAux fuel cs2).map (fun p => (Char.ofNat 12 :: p.1, p.2))
        else if e = 'n' then (parseJsonStringAux fuel cs2).map (fun p => ('\n' :: p.1, p.2))
        else if e = 'r' then (parseJsonStringAux fuel cs2).map (fun p => ('\r' :: p.1, p.2))
        else if e = 't' then (parseJsonStringAux fuel cs2).map (fun p => ('\t' :: p.1, p.2))
        else if e = 'u' then
          match cs2 with
          | h1 :: h2 :: h3 :: h4 :: cs3 =>
            match hexVal h1, hexVal h2, hexVal h3, hexVal h4 with
            | some a, some b, some c3, some d =>
              (parseJsonStringAux fuel cs3).map
                (fun p => (Char.ofNat (a * 4096 + b * 256 + c3 * 16 + d) :: p.1, p.2))
            | _, _, _, _ => none
          | _ => none
        else none
    else if c.toNat < 32 then none
    else (parseJsonStringAux fuel cs).map (fun p => (c :: p.1, p.2))

/-- Parse a JSON string literal body with adequate fuel. -/
def parseJsonString (cs : List Char) : Option (List Char × List Char) :=
  parseJsonStringAux cs.length cs

/-- The integer part of CPython's `NUMBER_RE`: `0`, or a nonzero digit
followed by digits.  A leading zero matches only the `0` itself, so the
digits after it are left for the following delimiter check to reject,
exactly as `json.loads` does with `01`. -/
def parseJsonIntPart : List Char → Option (Nat × List Char)
  | [] => none
  | c :: cs =>
    if c = '0' then some (0, cs)
    else if '1' ≤ c ∧ c ≤ '9' then
      let ds := cs.takeWhile (fun d => '0' ≤ d ∧ d ≤ '9')
      some ((c :: ds).foldl (fun acc d => acc * 10 + (d.toNat - 48)) 0, cs.drop ds.length)
    else none

/-- The optional fraction part `(\.\d+)?`; returns the matched text and
the rest (nothing is consumed when the part does not match). -/
def parseJsonFrac : List Char → List Char × List Char
  | '.' :: cs =>
    let ds := cs.takeWhile (fun d => '0' ≤ d ∧ d ≤ '9')
    if ds = [] then ([], '.' :: cs) else ('.' :: ds, cs.drop ds.length)
  | l => ([], l)

/-- The optional exponent part `([eE][-+]?\d+)?`; returns the matched
text and the rest (nothing is consumed when the part does not match). -/
def parseJsonExp : List Char → List Char × List Char
  | [] => ([], [])
  | e :: cs =>
    if e = 'e' ∨ e = 'E' then
      match cs with
      | [] => ([], [e])
      | s :: cs2 =>
        if s = '+' ∨ s = '-' then
          let ds := cs2.takeWhile (fun d => '0' ≤ d ∧ d ≤ '9')
          if ds = [] then ([], e :: s :: cs2) else (e :: s :: ds, cs2.drop ds.length)
        else
          let ds := cs.takeWhile (fun d => '0' ≤ d ∧ d ≤ '9')
          if ds = [] then ([], e :: cs) else (e :: ds, cs.drop ds.length)
    else ([], e :: cs)

/-- A JSON numeral per `NUMBER_RE` (`neg` records an already-consumed
`-`): an integer when fraction and exponent are absent, otherwise the
matched float literal. -/
def parseJsonNumber (neg : Bool) (l : List Char) : Option (Json × List Char) :=
  match parseJsonIntPart l with
  | none => none
  | some (n, rest1) =>
    match parseJsonFrac rest1 with
    | (fr, rest2) =>
      match parseJsonExp rest2 with
      | (ex, rest3) =>
        if fr = [] ∧ ex = [] then
          some (Json.num (if neg then -(n : Int) else (n : Int)), rest3)
        else
          some (Json.numLit (String.mk
            ((if neg then ['-'] else []) ++ l.take (l.length - rest3.length))), rest3)

mutual

/-- Fueled recursive-descent parser for a JSON value. -/
def parseJsonValue : Nat → List Char → Option (Json × List Char)
  | 0, _ => none
  | fuel + 1, l =>
    match jsonSkipWs l with
    | [] => none
    | c :: cs =>
      if c = '"' then
        (parseJsonString cs).map (fun p => (Json.str (String.mk p.1), p.2))
      else if c = '\x7b' then
        match jsonSkipWs cs with
        | '\x7d' :: cs2 => some (Json.obj [], cs2)
        | cs2 => parseJsonMembers fuel cs2 []
      else if c = '[' then
        match jsonSkipWs cs with
        | ']' :: cs2 => some (Json.arr [], cs2)
        | cs2 => parseJsonElements fuel cs2 []
      else if c = 't' then
        if listIsPre ['r', 'u', 'e'] cs then some (Json.bool true, cs.drop 3) else none
      else if c = 'f' then
        if listIsPre ['a', 'l', 's', 'e'] cs then some (Json.bool false, cs.drop 4) else none
      else if c = 'n' then
        if listIsPre ['u', 'l', 'l'] cs then some (Json.null, cs.drop 3) else none
      else if c = 'N' then
        if listIsPre ['a', 'N'] cs then some (Json.numLit "NaN", cs.drop 2) else none
      else if c = 'I' then
        if listIsPre ['n', 'f', 'i', 'n', 'i', 't', 'y'] cs then
          some (Json.numLit "Infinity", cs.drop 7)
        else none
      else if c = '-' then
        match cs with
        | 'I' :: cs2 =>
          if listIsPre ['n', 'f', 'i', 'n', 'i', 't', 'y'] cs2 then
            some (Json.numLit "-Infinity", cs2.drop 7)
          else none
        | _ => parseJsonNumber true cs
      else
        parseJsonNumber false (c :: cs)

/-- Parse the members of a JSON object (positioned at a key). -/
def parseJsonMembers : Nat → List Char → List (String × Json) →
    Option (Json × List Char)
  | 0, _, _ => none
  | fuel + 1, l, acc =>
    match jsonSkipWs l with
    | '"' :: cs =>
      match parseJsonString cs with
      | some (key, rest) =>
        match jsonSkipWs rest with
        | ':' :: rest2 =>
          match parseJsonValue fuel rest2 with
          | some (v, rest3) =>
            match jsonSkipWs rest3 with
            | ',' :: rest4 => parseJsonMembers fuel rest4 (acc ++ [(String.mk key, v)])
            | '\x7d' :: rest4 => some (Json.obj (acc ++ [(String.mk key, v)]), rest4)
            | _ => none
          | none => none
        | _ => none
      | none => none
    | _ => none

/-- Parse the elements of a JSON array (positioned at a value). -/
def parseJsonElements : Nat → List Char → List Json → Option (Json × List Char)
  | 0, _, _ => none
  | fuel + 1, l, acc =>
    match parseJsonValue fuel l with
    | some (v, rest) =>
      match jsonSkipWs rest with
      | ',' :: rest2 => parseJsonElements fuel rest2 (acc ++ [v])
      | ']' :: rest2 => some (Json.arr (acc ++ [v]), rest2)
      | _ => none
    | none => none

end

/-- Python's `json.loads`: parse a complete JSON document. -/
def jsonParse (s : String) : Option Json :=
  match parseJsonValue (2 * s.data.length + 4) s.data with
  | some (j, rest) => if jsonSkipWs rest = [] then some j else none
  | none => none

/-- Dictionary lookup on parsed JSON (later duplicate keys win, as in
Python's `json.loads`). -/
def jsonLookup : List (String × Json) → String → Option Json
  | [], _ => none
  | (k, v) :: fs, key =>
    match jsonLookup fs key with
    | some r => some r
    | none => if k = key then some v else none

/-- `chunk[key]` for an object; `none` for any other shape (whose
subscripting/`.get` failures the stream loops catch and skip). -/
def Json.getField : Json → String → Option Json
  | .obj fs, key => jsonLookup fs key
  | _, _ => none

/-! ## Streaming clients (`openrouter_client.stream_chat`,
`reviewer.stream_grok_review`)

The HTTP transport is abstracted as the outcome the `requests` call
produces: either a raised exception (status error, timeout, connection
failure, other request error) or a successful response whose
`iter_lines()` yields the given byte lines.  Generators are modelled as
the list of chunks they yield.  Non-string `delta.content` values (which
the source would yield as-is) are not modelled. -/

inductive Transport where
  | httpError (code : Nat) (detail : String) (errText : String)
  | timeoutErr (errText : String)
  | connectionErr (errText : String)
  | requestErr (errText : String)
  | ok (lines : List (List Nat))
deriving DecidableEq, Repr

/-- `delta.get("content")` as extracted by `openrouter_client.stream_chat`:
`chunk["choices"][0].get("delta", {}).get("content")`, `none` for every
shape whose subscripting the loop's `except` clauses skip. -/
def extractDeltaContent (chunk : Json) : Option String :=
  match chunk.getField "choices" with
  | some (.arr (c0 :: _)) =>
    match c0 with
    | .obj fs =>
      match jsonLookup fs "delta" with
      | some (.obj dfs) =>
        match jsonLookup dfs "content" with
        | some (.str s) => some s
        | _ => none
      | some _ => none
      | none => none
    | _ => none
  | _ => none

/-- The line-consumption loop of `openrouter_client.stream_chat`. -/
def stream_chat_body : List (List Nat) → List String
  | [] => []
  | line :: rest =>
    if line = [] then stream_chat_body rest
    else
      match utf8Decode line with
      | none => stream_chat_body rest
      | some cps =>
        let lineStr := cpsToString cps
        if pyStartsWith lineStr "data: " then
          let payload := pyStrip (pyDrop lineStr 6)
          if payload = "[DONE]" then []
          else
            match jsonParse payload with
            | none => stream_chat_body rest
            | some chunk =>
              match extractDeltaContent chunk with
              | some content =>
                if content = "" then stream_chat_body rest
                else content :: stream_chat_body rest
              | none => stream_chat_body rest
        else stream_chat_body rest

/-- `openrouter_client.stream_chat`: no error handling of its own — a
transport failure propagates as an exception (`none`); a successful
response yields the chunks of its body. -/
def stream_chat (t : Transport) : Option (List String) :=
  match t with
  | .ok lines => some (stream_chat_body lines)
  | _ => none

/-- `delta['content']` as extracted by `reviewer.stream_grok_review`'s
loop (`if 'content' in delta`, yielding only string contents in the
model). -/
def reviewerDeltaContent (chunk : Json) : Option Json :=
  match chunk.getField "choices" with
  | some (.arr (c0 :: _)) =>
    match c0 with
    | .obj fs =>
      match jsonLookup fs "delta" with
      | some (.obj dfs) => jsonLookup dfs "content"
      | some _ => none
      | none => none
    | _ => none
  | _ => none

/-- The line-consumption loop of `reviewer.stream_grok_review` (it strips
the payload only for the `[DONE]` comparison, and yields whenever the
delta has a `content` key). -/
def reviewerStreamBody : List (List Nat) → List String
  | [] => []
  | line :: rest =>
    if line = [] then reviewerStreamBody rest
    else
      match utf8Decode line with
      | none => reviewerStreamBody rest
      | some cps =>
        let lineStr := cpsToString cps
        if pyStartsWith lineStr "data: " then
          let payload := pyDrop lineStr 6
          if pyStrip payload = "[DONE]" then []
          else
            match jsonParse payload with
            | none => reviewerStreamBody rest
            | some chunk =>
              match reviewerDeltaContent chunk with
              | some (.str s) => s :: reviewerStreamBody rest
              | some _ => reviewerStreamBody rest
              | none => reviewerStreamBody rest
        else reviewerStreamBody rest

/-- `reviewer.stream_grok_review`, as the list of chunks the generator
yields.  `request_id` stands for `str(uuid.uuid4())[:8]` (the model takes
it as an argument); the history-logging side effect of `log_request`
yields nothing and is elided. -/
def stream_grok_review (api_key user_prompt request_id : String)
    (t : Transport) : List String :=
  if api_key = "" then ["❌ **Error**: Invalid API key provided."]
  else if user_prompt = "" then ["❌ **Error**: Invalid prompt provided."]
  else
    let v := validate_and_estimate_tokens user_prompt
    if v.1 = false then ["❌ **Request Too Large**: " ++ v.2.1]
    else
      (if pyIn "⚠️" v.2.1 then [v.2.1 ++ "\n\n"] else []) ++
      ("*Request ID: `" ++ request_id ++ "`*\n\n") ::
      (match t with
       | .ok lines => reviewerStreamBody lines
       | .httpError code detail errText =>
         if code = 401 then
           ["❌ **Authentication Error**: Invalid API key. Please verify your OpenRouter credentials at https://openrouter.ai/keys"]
         else if code = 429 then
           ["⏱️ **Rate Limit Exceeded**: Too many requests. Please wait a few minutes or check your OpenRouter quota at https://openrouter.ai/activity"]
         else if code = 402 then
           ["💳 **Payment Required**: Insufficient credits. Please add credits to your OpenRouter account."]
         else if code = 503 then
           ["🔧 **Service Unavailable**: The AI model is temporarily unavailable. Please try again in a few minutes."]
         else
           ["❌ **HTTP Error " ++ natRepr code ++ "**: " ++ errText ++
             (if detail = "" then "" else " - " ++ detail) ++
             "\n\nPlease check the OpenRouter status page or try a different model."]
       | .timeoutErr _ =>
         ["⏱️ **Timeout Error**: The request took too long (30 seconds). Please try again with smaller files or check your internet connection."]
       | .connectionErr _ =>
         ["🌐 **Connection Error**: Could not connect to OpenRouter. Please check your internet connection and try again."]
       | .requestErr errText =>
         ["❌ **Network Error**: " ++ errText ++
           "\n\nPlease check your internet connection and try again."])

/-! ## Import extraction (`utils.detect_dependencies`, regex part)

`re.finditer(r'from\s+([\w.]+)\s+import', …)` and
`re.finditer(r'import\s+([\w.]+)', …)` are hand-compiled.  The character
classes are disjoint (`\s` versus `[\w.]`), so greedy maximal-munch
matching is exact and no backtracking arises.  `\w` is modelled as the
ASCII word characters; re's `\s` as the Python white-space set. -/

/-- A character of the class `[\w.]`. -/
def isWordDot (c : Char) : Bool := c.isAlphanum || c = '_' || c = '.'

/-- Match `from\s+([\w.]+)\s+import` at the head of `l`, returning the
group and the match length. -/
def matchFromImportAt (l : List Char) : Option (List Char × Nat) :=
  if listIsPre ['f', 'r', 'o', 'm'] l then
    let r1 := l.drop 4
    let ws1 := r1.takeWhile isPySpace
    if ws1 = [] then none
    else
      let r2 := r1.drop ws1.length
      let grp := r2.takeWhile isWordDot
      if grp = [] then none
      else
        let r3 := r2.drop grp.length
        let ws2 := r3.takeWhile isPySpace
        if ws2 = [] then none
        else
          let r4 := r3.drop ws2.length
          if listIsPre ['i', 'm', 'p', 'o', 'r', 't'] r4 then
            some (grp, 4 + ws1.length + grp.length + ws2.length + 6)
          else none
  else none

/-- Match `import\s+([\w.]+)` at the head of `l`. -/
def matchImportAt (l : List Char) : Option (List Char × Nat) :=
  if listIsPre ['i', 'm', 'p', 'o', 'r', 't'] l then
    let r1 := l.drop 6
    let ws1 := r1.takeWhile isPySpace
    if ws1 = [] then none
    else
      let r2 := r1.drop ws1.length
      let grp := r2.takeWhile isWordDot
      if grp = [] then none
      else some (grp, 6 + ws1.length + grp.length)
  else none

/-- `re.finditer` scan: left to right, non-overlapping, collecting group 1
of every match (our matches always have positive length). -/
def finditerGroupsAux (m : List Char → Option (List Char × Nat)) :
    Nat → List Char → List String
  | _, [] => []
  | 0, _ => []
  | fuel + 1, c :: t =>
    match m (c :: t) with
    | some (g, len) => String.mk g :: finditerGroupsAux m fuel ((c :: t).drop (max 1 len))
    | none => finditerGroupsAux m fuel t

def finditerGroups (m : List Char → Option (List Char × Nat)) (l : List Char) :
    List String :=
  finditerGroupsAux m l.length l

/-- Deduplicate keeping first occurrences (a deterministic stand-in for
Python `set` iteration, whose order is unspecified; no claim depends on
this order). -/
def dedupFirstAux : Nat → List String → List String
  | _, [] => []
  | 0, l => l
  | fuel + 1, x :: xs => x :: dedupFirstAux fuel (xs.filter (· ≠ x))

def dedupFirst (l : List String) : List String := dedupFirstAux l.length l

/-- The set of top-level module names imported by `content`
(group 1 of each match, truncated at the first `'.'`). -/
def extractImportModules (content : String) : List String :=
  let gs := finditerGroups matchFromImportAt content.data ++
            finditerGroups matchImportAt content.data
  dedupFirst (gs.map (fun g => ((pySplitChar g '.').headD "")))

/-- The keys of `import_map` in insertion order (first occurrence of each
filename; later duplicates overwrite the value but keep the position). -/
def importMapKeys (code_contents : List CodeFile) : List String :=
  dedupFirst (code_contents.map (·.filename))

/-- `import_map[k]`: the imports of the **last** item named `k`
(dict assignment overwrites). -/
def importMapVal (code_contents : List CodeFile) (k : String) : List String :=
  match code_contents.reverse.find? (fun f => f.filename = k) with
  | some f => extractImportModules f.content
  | none => []

/-! ## Dependency ordering (`utils.detect_dependencies`, `visit`)

The recursive `visit` closure mutates three locals (`visited`,
`visiting`, `ordered`); the model threads them through a state record.
Python's recursion depth is bounded by the number of distinct filenames
(each nested frame adds a fresh name to `visiting ∪ visited`), so running
the model with fuel `importMapKeys.length + 1` reproduces the source
exactly: the fuel-exhaustion branch is unreachable. -/

structure VisitState where
  visited : List String
  visiting : List String
  ordered : List CodeFile
deriving Repr

/-- Set insertion (`set.add`). -/
def insertSet (s : List String) (x : String) : List String :=
  if s.contains x then s else s ++ [x]

/-- The sequence of `other_file` values on which the inner loops of
`visit` attempt a recursive call, in iteration order. -/
def visitCandidates (code_contents : List CodeFile) (filename : String) :
    List String :=
  ((importMapVal code_contents filename).map (fun dep =>
    (importMapKeys code_contents).filter (fun other =>
      other ≠ filename && (pySplitChar other '.').headD "" = dep))).flatten

mutual

/-- `visit(filename)`.  The fuel only bounds the recursion (it decreases
on every nested call); `detect_dependencies` supplies enough of it that
the zero-fuel branches are unreachable, reproducing the source exactly.
Whenever the fuel is positive, an unvisited file is marked visited and —
the essential fact for the ordering claims — appended to `ordered` (if
not already present) regardless of what happens in the nested calls. -/
def visitFile (code_contents : List CodeFile) : Nat → String → VisitState → VisitState
  | 0, _, st => st
  | fuel + 1, filename, st =>
    if st.visited.contains filename then st
    else if st.visiting.contains filename then
      { st with visiting := st.visiting.filter (· ≠ filename),
                visited := insertSet st.visited filename }
    else
      let st1 := { st with visiting := insertSet st.visiting filename }
      let st2 := visitList code_contents fuel (visitCandidates code_contents filename) st1
      let st3 := { st2 with visiting := st2.visiting.filter (· ≠ filename),
                            visited := insertSet st2.visited filename }
      if (st3.ordered.map (·.filename)).contains filename then st3
      else
        match code_contents.find? (fun i => i.filename = filename) with
        | some item => { st3 with ordered := st3.ordered ++ [item] }
        | none => st3

/-- The dependency loops of `visit`: try each candidate in turn, calling
`visit` on those not yet visited. -/
def visitList (code_contents : List CodeFile) : Nat → List String → VisitState → VisitState
  | _, [], st => st
  | 0, _ :: _, st => st
  | fuel + 1, g :: gs, st =>
    let st' := if st.visited.contains g then st else visitFile code_contents fuel g st
    visitList code_contents fuel gs st'

end

/-- Fuel sufficient for the depth of `visit`'s recursion: each distinct
filename opens at most one frame, and a frame's depth contribution is one
plus the length of its candidate list. -/
def visitFuelBound (code_contents : List CodeFile) : Nat :=
  ((importMapKeys code_contents).map
    (fun f => (visitCandidates code_contents f).length + 2)).sum + 2

/-- `utils.detect_dependencies`. -/
def detect_dependencies (code_contents : List CodeFile) : List CodeFile :=
  if code_contents = [] then []
  else
    let final := code_contents.foldl
      (fun st item => visitFile code_contents (visitFuelBound code_contents) item.filename st)
      ⟨[], [], []⟩
    if final.ordered = [] then code_contents else final.ordered

/-! ## File prioritisation (`utils.prioritize_files`) -/

def entryPointNames : List String :=
  ["main.py", "app.py", "index.js", "server.js", "run.py", "manage.py"]

def configFileNamesShort : List String :=
  ["config.py", "settings.py", "package.json", "requirements.txt"]

def corePatternNames : List String :=
  ["models.py", "views.py", "controllers.py", "services.py", "utils.py"]

def securityPatternNames : List String :=
  ["auth.py", "security.py", "permissions.py", "middleware.py"]

def testMarkerNames : List String := ["test_", "_test", ".spec.", ".test."]

/-- The additive priority score of one file. -/
def priorityScore (item : CodeFile) : Int :=
  let fl := pyLower item.filename
  (if entryPointNames.any (fun ep => pyIn ep fl) then 100 else 0) +
  (if configFileNamesShort.any (fun cf => pyIn cf fl) then 80 else 0) +
  (if corePatternNames.any (fun cp => pyIn cp fl) then 60 else 0) +
  (if securityPatternNames.any (fun sp => pyIn sp fl) then 70 else 0) +
  (if testMarkerNames.any (fun tm => pyIn tm fl) then 40 else 0) +
  (if pyLen item.content > 5000 then -10
   else if pyLen item.content < 100 then -5 else 0)

/-- Stable insertion into a descending-sorted list: the new element goes
after existing elements of greater-or-equal score. -/
def insertDesc (x : Int × CodeFile) : List (Int × CodeFile) → List (Int × CodeFile)
  | [] => [x]
  | y :: ys => if y.1 > x.1 then y :: insertDesc x ys else x :: y :: ys

/-- Stable descending sort by score — extensionally the unique result of
Python's stable `sort(key=…, reverse=True)`. -/
def sortScoredDesc : List (Int × CodeFile) → List (Int × CodeFile)
  | [] => []
  | x :: xs => insertDesc x (sortScoredDesc xs)

/-- `utils.prioritize_files`. -/
def prioritize_files (code_contents : List CodeFile) : List CodeFile :=
  if code_contents = [] then []
  else (sortScoredDesc (code_contents.map (fun i => (priorityScore i, i)))).map (·.2)

/-! ## Redundancy scan (`utils.detect_redundancy`, the `imports` table) -/

/-- `\s+.+` on the remainder of a (newline-free) line. -/
def importTailOk (r : String) : Bool :=
  match r.data with
  | c :: _ :: _ => isPySpace c
  | _ => false

/-- A line matched by `^(?:from|import)\s+.+$` (`re.MULTILINE`): the whole
line, which must start with the keyword followed by a white-space
character and at least one further character. -/
def lineIsImportStmt (l : String) : Bool :=
  (pyStartsWith l "from" && importTailOk (pyDrop l 4)) ||
  (pyStartsWith l "import" && importTailOk (pyDrop l 6))

/-- Append `v` to the list at key `k` (insertion-ordered association
list, mirroring `patterns['imports'][imp].append(filename)`). -/
def assocAppend : List (String × List String) → String → String →
    List (String × List String)
  | [], k, v => [(k, [v])]
  | (k', vs) :: rest, k, v =>
    if k' = k then (k', vs ++ [v]) :: rest else (k', vs) :: assocAppend rest k v

/-- The `imports` table of `utils.detect_redundancy`: import-statement
line → files containing it (each file counted once per distinct line). -/
def detectRedundancyImports (code_contents : List CodeFile) :
    List (String × List String) :=
  code_contents.foldl
    (fun acc item =>
      let imps := dedupFirst ((pySplitChar item.content '\n').filter lineIsImportStmt)
      imps.foldl (fun acc2 imp => assocAppend acc2 imp item.filename) acc)
    []

/-! ## Project context detection (`utils.detect_project_context`)

Each framework-signature regular expression is hand-compiled to a string
matcher.  `re.IGNORECASE` is modelled by case-folding the haystack and
using lower-case needles; `\s+` uses the Python white-space set; `\w` is
not needed here.  The unused `patterns` entry of the context record is
omitted. -/

structure ProjectContext where
  project_type : String
  frameworks : List String
  entry_points : List String
  config_files : List String
  test_files : List String
deriving DecidableEq, Repr

/-- Match a sequence of literals separated by `\s+` at the head of `l`. -/
def matchLitsWsAt : List (List Char) → List Char → Bool
  | [], _ => true
  | [a], l => listIsPre a l
  | a :: b :: rest, l =>
    if listIsPre a l then
      let r := l.drop a.length
      let ws := r.takeWhile isPySpace
      ws ≠ [] && matchLitsWsAt (b :: rest) (r.drop ws.length)
    else false

/-- `re.search` for a `lit₁\s+lit₂\s+…` pattern. -/
def hasLitsWs (lits : List (List Char)) : List Char → Bool
  | [] => matchLitsWsAt lits []
  | c :: t => matchLitsWsAt lits (c :: t) || hasLitsWs lits t

/-- `b` occurs later in `l` with no intervening newline (`.*b`). -/
def existsBeforeNewline (b : List Char) : List Char → Bool
  | [] => listIsPre b []
  | c :: t => if listIsPre b (c :: t) then true else if c = '\n' then false else existsBeforeNewline b t

/-- `re.search` for an `a.*b` pattern. -/
def hasSeqAnyNoNl (a b : List Char) : List Char → Bool
  | [] => false
  | c :: t =>
    (listIsPre a (c :: t) && existsBeforeNewline b ((c :: t).drop a.length)) ||
    hasSeqAnyNoNl a b t

/-- Case-insensitive literal search (needle given lower-case). -/
def searchLitCI (needle hay : String) : Bool := pyIn needle (pyLower hay)

/-- Case-insensitive `lit₁\s+lit₂\s+…` search. -/
def searchWsCI (lits : List String) (hay : String) : Bool :=
  hasLitsWs (lits.map (·.data)) (pyLower hay).data

/-- Case-insensitive `a.*b` search. -/
def searchSeqCI (a b : String) (hay : String) : Bool :=
  hasSeqAnyNoNl a.data b.data (pyLower hay).data

/-- `framework_patterns`, each regular expression compiled to a matcher:
`\.jsx?` matches exactly where the literal `.js` occurs. -/
def framework_patterns : List (String × List (String → Bool)) :=
  [("django",
    [searchWsCI ["from", "django."], searchLitCI "django==", searchLitCI "manage.py",
     searchLitCI "settings.py", searchLitCI "urls.py"]),
   ("flask",
    [searchWsCI ["from", "flask", "import"], searchLitCI "flask==",
     searchLitCI "@app.route", searchLitCI "app.run("]),
   ("fastapi",
    [searchWsCI ["from", "fastapi", "import"], searchLitCI "fastapi(",
     searchLitCI "@app.get(", searchLitCI "uvicorn.run"]),
   ("react",
    [searchWsCI ["import", "react"], searchSeqCI "package.json" "react",
     searchLitCI ".js", searchLitCI "components/"]),
   ("node",
    [searchLitCI "package.json", searchLitCI "node_modules/",
     searchLitCI "require(", searchSeqCI "import" "from"]),
   ("streamlit",
    [searchWsCI ["import", "streamlit"], searchLitCI "st.",
     searchLitCI ".streamlit/"])]

/-- `entry_point_files` of `detect_project_context`. -/
def entryPointFiles : List String :=
  ["main.py", "app.py", "index.js", "server.js", "run.py", "manage.py"]

/-- `config_files` of `detect_project_context`. -/
def configFileNamesLong : List String :=
  ["requirements.txt", "package.json", "pyproject.toml", "setup.py",
   "Dockerfile", "docker-compose.yml", ".env", "config.py",
   "settings.py", "app.yaml", "Procfile"]

/-- The six test-filename patterns, each equivalent to a suffix test (for
`test_.*\.py$`: a `test_` occurrence entirely before the final `.py`). -/
def isTestFileName (fn : String) : Bool :=
  (pyEndsWith fn ".py" && listHasSub "test_".data (fn.data.take (fn.data.length - 3))) ||
  pyEndsWith fn "_test.py" || pyEndsWith fn ".spec.js" || pyEndsWith fn ".test.js" ||
  pyEndsWith fn ".spec.ts" || pyEndsWith fn ".test.ts"

/-- `utils.detect_project_context`. -/
def detect_project_context (code_contents : List CodeFile) : ProjectContext :=
  let filenames := code_contents.map (·.filename)
  let all_content := joinWithChar '\n' (code_contents.map (fun i => pyTake i.content 1000))
  let frameworks := framework_patterns.foldl
    (fun acc fwpats =>
      if fwpats.2.any (fun p => p all_content || filenames.any (fun fn => p fn)) &&
         ¬ acc.contains fwpats.1
      then acc ++ [fwpats.1] else acc)
    []
  let project_type :=
    if frameworks.contains "django" then "django"
    else if frameworks.contains "fastapi" then "fastapi"
    else if frameworks.contains "flask" then "flask"
    else if frameworks.contains "react" then "react"
    else if frameworks.contains "streamlit" then "streamlit"
    else if frameworks.contains "node" then "node"
    else "unknown"
  { project_type := project_type
    frameworks := frameworks
    entry_points := filenames.filter (fun fn => entryPointFiles.contains fn)
    config_files := filenames.filter (fun fn => configFileNamesLong.contains fn)
    test_files := filenames.filter isTestFileName }

/-! ## File tree (`construct_user_prompt`, tree building and rendering)

The nested-`dict` tree (`None` marks a file) is modelled by `FTree`.
Inserting a file over an existing directory overwrites it (dict
assignment); descending into an existing file raises in the source and is
totalised here by replacing it with a fresh directory. -/

inductive FTree where
  | leaf
  | dir (children : List (String × FTree))
deriving Repr

/-- Dict assignment preserving the position of an existing key. -/
def assocSet : List (String × FTree) → String → FTree → List (String × FTree)
  | [], k, v => [(k, v)]
  | (k', v') :: rest, k, v =>
    if k' = k then (k, v) :: rest else (k', v') :: assocSet rest k v

/-- Dict lookup. -/
def assocGet : List (String × FTree) → String → Option FTree
  | [], _ => none
  | (k', v') :: rest, k => if k' = k then some v' else assocGet rest k

/-- Insert one `/`-split path into a directory level, mirroring the
source's loop `for part in path[:-1]: …; current_level[path[-1]] = None`
exactly: a missing intermediate key is created as an empty dict (appended
at the end, in dict insertion order) and descended into; the final
segment is assigned `None`, overwriting whatever was there.  Descending
into a key previously assigned `None` (a file) makes `current_level`
equal `None`, so the very next membership test or item assignment raises
a `TypeError` — modelled as `none`.  (`split('/')` never yields an empty
list; on one the source would raise `IndexError`, also `none`.) -/
def ftInsert : List (String × FTree) → List String → Option (List (String × FTree))
  | _, [] => none
  | cs, [last] => some (assocSet cs last .leaf)
  | cs, seg :: seg2 :: rest =>
    match assocGet cs seg with
    | some .leaf => none
    | some (.dir cs2) =>
      match ftInsert cs2 (seg2 :: rest) with
      | some cs2' => some (assocSet cs seg (.dir cs2'))
      | none => none
    | none =>
      match ftInsert [] (seg2 :: rest) with
      | some cs2' => some (assocSet cs seg (.dir cs2'))
      | none => none

/-- The `for item in ordered_contents:` tree-building loop; the first
`TypeError` aborts the whole construction (later items are never
examined). -/
def buildFileTreeAux : List (String × FTree) → List CodeFile →
    Option (List (String × FTree))
  | cs, [] => some cs
  | cs, item :: rest =>
    match ftInsert cs (pySplitChar item.filename '/') with
    | some cs2 => buildFileTreeAux cs2 rest
    | none => none

/-- The tree of all filenames, in insertion order; `none` when the build
raises. -/
def buildFileTree (ordered : List CodeFile) : Option FTree :=
  (buildFileTreeAux [] ordered).map FTree.dir

/-- Code-point lexicographic order on strings (Python `<`). -/
def pyStrLtList : List Char → List Char → Bool
  | [], [] => false
  | [], _ :: _ => true
  | _ :: _, [] => false
  | x :: xs, y :: ys =>
    if x.toNat < y.toNat then true
    else if y.toNat < x.toNat then false
    else pyStrLtList xs ys

/-- Insertion into a key-sorted pair list. -/
def insertByKey (x : String × FTree) : List (String × FTree) → List (String × FTree)
  | [] => [x]
  | y :: ys => if pyStrLtList y.1.data x.1.data then y :: insertByKey x ys else x :: y :: ys

/-- `sorted(tree.items())` (keys are distinct by construction). -/
def sortPairsByKey : List (String × FTree) → List (String × FTree)
  | [] => []
  | x :: xs => insertByKey x (sortPairsByKey xs)

mutual

/-- Recursively sort every directory's children by name.  The fuel only
bounds the recursion depth (it decreases on every nested call) and
`promptHeader` supplies more of it than the tree is deep, so the
zero-fuel branch is unreachable. -/
def sortTree : Nat → FTree → FTree
  | 0, t => t
  | _ + 1, .leaf => .leaf
  | fuel + 1, .dir cs => .dir (sortPairsByKey (sortTreeChildren fuel cs))

def sortTreeChildren : Nat → List (String × FTree) → List (String × FTree)
  | 0, cs => cs
  | _ + 1, [] => []
  | fuel + 1, (k, t) :: rest => (k, sortTree fuel t) :: sortTreeChildren fuel rest

end

/-- `'    ' * indent`. -/
def indentStr (indent : Nat) : String := String.mk (List.replicate (4 * indent) ' ')

mutual

/-- `format_tree` on an already-sorted tree.  As with `sortTree` the fuel
only bounds the recursion and is kept large enough to be unreachable. -/
def formatTreeSorted : Nat → FTree → Nat → List String
  | 0, _, _ => []
  | _ + 1, .leaf, _ => []
  | fuel + 1, .dir cs, indent => formatChildrenSorted fuel cs indent

def formatChildrenSorted : Nat → List (String × FTree) → Nat → List String
  | 0, _, _ => []
  | _ + 1, [], _ => []
  | fuel + 1, (name, .leaf) :: rest, indent =>
    (indentStr indent ++ "📄 " ++ name) :: formatChildrenSorted fuel rest indent
  | fuel + 1, (name, .dir cs) :: rest, indent =>
    (indentStr indent ++ "📁 " ++ name ++ "/") ::
      (formatChildrenSorted fuel cs (indent + 1) ++ formatChildrenSorted fuel rest indent)

end

/-- Fuel exceeding both the depth of the file tree and the total number
of its nodes: one node per path segment plus the root, so the recursions
above never hit their zero-fuel branches. -/
def treeFuel (ordered : List CodeFile) : Nat :=
  ((ordered.map (fun i => (pySplitChar i.filename '/').length + 1)).sum) + 2

/-- `format_tree(file_tree)` of the source (children sorted by name at
each level). -/
def format_tree (fuel : Nat) (t : FTree) : List String :=
  formatTreeSorted fuel (sortTree fuel t) 0

/-! ## Prompt assembly (`utils.construct_user_prompt`) -/

/-- `filename.split('.')[-1] if '.' in filename else 'unknown'`. -/
def langOf (filename : String) : String :=
  if filename.data.contains '.' then (pySplitChar filename '.').getLast?.getD "unknown"
  else "unknown"

/-- Increment the count at key `k`, appending new keys (dict in insertion
order). -/
def assocIncr : List (String × Nat) → String → List (String × Nat)
  | [], k => [(k, 1)]
  | (k', n) :: rest, k =>
    if k' = k then (k', n + 1) :: rest else (k', n) :: assocIncr rest k

/-- The per-extension counts (`languages`). -/
def countLangs (ordered : List CodeFile) : List (String × Nat) :=
  ordered.foldl (fun acc i => assocIncr acc (langOf i.filename)) []

/-- Ascending insertion by Python string order. -/
def insertStrAsc (x : String) : List String → List String
  | [] => [x]
  | y :: ys => if pyStrLtList y.data x.data then y :: insertStrAsc x ys else x :: y :: ys

/-- Python's `sorted` on strings. -/
def sortStringsAsc : List String → List String
  | [] => []
  | x :: xs => insertStrAsc x (sortStringsAsc xs)

/-- The pipeline order the assembler renders:
`detect_dependencies(prioritize_files(code_contents))`. -/
def orderedContents (code_contents : List CodeFile) : List CodeFile :=
  detect_dependencies (prioritize_files code_contents)

/-- One numbered line of the `## Files to Analyze` manifest. -/
def manifestLines : Nat → List CodeFile → List String
  | _, [] => []
  | i, item :: rest =>
    (natRepr i ++ ". **" ++ item.filename ++ "** (" ++
      natRepr (item.content.data.count '\n') ++ " lines, " ++
      natRepr (pyLen item.content) ++ " chars, " ++ langOf item.filename ++ ")\n") ::
    manifestLines (i + 1) rest

/-- The rendering of one file: heading plus fenced code block containing
the content verbatim. -/
def fileBlock (item : CodeFile) : String :=
  "### FILE: " ++ item.filename ++ "\n\n" ++ "```\n" ++ item.content ++ "\n```\n\n"

/-- Everything `construct_user_prompt` emits before the
`## Files to Analyze` manifest (metadata, project context, file tree,
review context, task framing, architecture overview, shared patterns,
file processing report). -/
def promptHeader (code_contents : List CodeFile) (warnings : List String)
    (review_context : List (String × String)) : Option String :=
  let project_context := detect_project_context code_contents
  let ordered := orderedContents code_contents
  match buildFileTree ordered with
  | none => none
  | some file_tree =>
  let file_tree_str := joinWithChar '\n' (format_tree (treeFuel ordered) file_tree)
  let total_chars := (ordered.map (fun i => pyLen i.content)).sum
  let total_lines := (ordered.map (fun i => i.content.data.count '\n')).sum
  let languages := countLangs ordered
  let shared_imports :=
    ((detectRedundancyImports ordered).filter (fun kv => kv.2.length > 1)).map (·.1)
  some (strConcat
    (["## Code Review Request\n",
      "**Submission Metadata:**\n",
      "- Files Analyzed: " ++ natRepr ordered.length,
      "- Total Lines of Code: " ++ fmtComma total_lines,
      "- Total Characters: " ++ fmtComma total_chars,
      "- Estimated Tokens: ~" ++ fmtComma (total_chars / 4),
      "- Languages: " ++
        joinWith ", " (languages.map (fun lc => lc.1 ++ " (" ++ natRepr lc.2 ++ ")")) ++ "\n",
      "## Project Context\n",
      "- **Project Type**: " ++ project_context.project_type,
      "- **Frameworks**: " ++
        (let j := joinWith ", " project_context.frameworks
         if j = "" then "None detected" else j),
      "- **Entry Points**: " ++
        (let j := joinWith ", " project_context.entry_points
         if j = "" then "None detected" else j),
      "- **Config Files**: " ++
        (let j := joinWith ", " project_context.config_files
         if j = "" then "None detected" else j),
      "- **Test Files**: " ++
        (let j := joinWith ", " project_context.test_files
         if j = "" then "None detected" else j) ++ "\n",
      "\n## Project Structure\n```\n",
      file_tree_str,
      "\n```\n"] ++
     (if review_context ≠ [] then
        ["## Review Request Context\n\n"] ++
        review_context.map (fun lv => "- **" ++ lv.1 ++ "**: " ++ lv.2 ++ "\n") ++
        ["\n"]
      else []) ++
     ["Please evaluate the provided application code and point out both code-level issues and opportunities to make the AI code review workflow itself more effective. Consider how files are processed before they are sent to you, how the API payload is constructed, and how prompts could better guide future reviews.\n\n",
      "## Module Architecture\n\n",
      "The codebase is organized into layers:\n",
      "- **Configuration Layer** (config.py): Settings, constants, prompts\n",
      "- **Processing Layer** (utils.py): File handling, validation, prompt construction\n",
      "- **API Layer** (reviewer.py): OpenRouter integration, streaming, error handling\n",
      "- **UI Layer** (app.py): Streamlit interface, orchestration\n\n"] ++
     (if shared_imports ≠ [] then
        ["## Shared Patterns\n\n", "Common imports used across multiple files:\n"] ++
        ((sortStringsAsc shared_imports).take 10).map (fun imp => "- `" ++ imp ++ "`\n") ++
        ["\n"]
      else []) ++
     (if warnings ≠ [] then
        ["## File Processing Report\n\n", "**Issues Encountered:**\n"] ++
        warnings.map (fun w => "- " ++ pyReplace (pyReplace w "⚠️ " "") "✅ " "" ++ "\n") ++
        ["\n"]
      else
        ["## File Processing Report\n\n", "- All files processed successfully\n\n"])))

/-- The `## Files to Analyze` manifest followed by the separator. -/
def manifestSection (ordered : List CodeFile) : String :=
  "## Files to Analyze\n\n" ++ strConcat (manifestLines 1 ordered) ++
    ("\n" ++ String.mk (List.replicate 60 '=') ++ "\n\n")

/-- The per-file code blocks, in order. -/
def filesSection (ordered : List CodeFile) : String :=
  strConcat (ordered.map fileBlock)

/-- `utils.construct_user_prompt`.  `warnings = []` models both `None` and
an empty list (falsy either way); `review_context` is the insertion-ordered
dict; `none` is the `TypeError` the file-tree build raises when a file's
full name is reused as a directory on a later path. -/
def construct_user_prompt (code_contents : List CodeFile) (warnings : List String)
    (review_context : List (String × String)) : Option String :=
  match promptHeader code_contents warnings review_context with
  | none => none
  | some hdr =>
    some (hdr ++ manifestSection (orderedContents code_contents) ++
      filesSection (orderedContents code_contents))

/-! ## Predicates used by the theorems below -/

/-- The claim's segment computation: discard empty and `"."` segments of
the backslash-normalised path (spec §4.1). -/
def sanitizeSegments (m : String) : List String :=
  (pySplitChar (pyReplace m "\\" "/") '/').filter (fun p => p ≠ "" && p ≠ ".")

/-- The budget warning the loop emits. -/
def globalBudgetWarning : String :=
  "⚠️ Total upload size exceeded " ++ natRepr (MAX_TOTAL_SIZE / (1024 * 1024)) ++
    "MB. Skipping remaining files."

/-- Sum of the positive reported sizes: what the running total actually
accumulates while no overflow occurs. -/
def posSizeSum (items : List UploadedItem) : Int :=
  (items.map (fun it => max (it.size.getD 0) 0)).sum

def orderedNames (st : VisitState) : List String := st.ordered.map (·.filename)

def StateOk (cc : List CodeFile) (st : VisitState) : Prop :=
  (orderedNames st).Nodup ∧
  ∀ e ∈ st.ordered, cc.find? (fun i => i.filename = e.filename) = some e

def VisitSpec (cc : List CodeFile) (st st' : VisitState) : Prop :=
  (∃ add, st'.ordered = st.ordered ++ add) ∧
  (∀ x, x ∈ st.visited → x ∈ st'.visited) ∧
  (∀ x, x ∈ st'.visiting → x ∈ st.visiting) ∧
  (∀ x, x ∈ st.visited ∨ x ∈ st.visiting → x ∈ st'.visited ∨ x ∈ st'.visiting) ∧
  (∀ x, x ∈ st'.visited → x ∈ st.visited ∨ x ∈ orderedNames st' ∨ x ∈ st.visiting) ∧
  (∀ x, x ∈ orderedNames st' → x ∈ orderedNames st ∨ (x ∉ st.visited ∧ x ∉ st.visiting)) ∧
  (StateOk cc st → StateOk cc st')

def TopInv (cc : List CodeFile) (st : VisitState) : Prop :=
  st.visiting = [] ∧ (∀ x ∈ st.visited, x ∈ orderedNames st) ∧ StateOk cc st

/-! ## Supporting lemmas: substrings, digits -/

theorem charToNat_ofNat_small (n : Nat) (h : n < 0xD800) : (Char.ofNat n).toNat = n := by
  unfold Char.ofNat
  rw [dif_pos (by left; exact h : n.isValidChar)]
  rfl

theorem listIsPre_append_self (a b : List Char) : listIsPre a (a ++ b) = true := by
  induction a with
  | nil => rfl
  | cons x xs ih => simp [listIsPre, ih]

theorem listIsPre_mono_append (a b c : List Char) (h : listIsPre a b = true) :
    listIsPre a (b ++ c) = true := by
  induction a generalizing b with
  | nil => rfl
  | cons x xs ih =>
    cases b with
    | nil => simp [listIsPre] at h
    | cons d ds =>
      simp only [listIsPre, Bool.and_eq_true, decide_eq_true_eq] at h
      simp only [List.cons_append, listIsPre, Bool.and_eq_true, decide_eq_true_eq]
      exact ⟨h.1, ih ds h.2⟩

theorem listIsPre_mem (a : List Char) (x : Char) (hx : x ∈ a) :
    ∀ b, listIsPre a b = true → x ∈ b := by
  induction a with
  | nil => cases hx
  | cons c cs ih =>
    intro b h
    cases b with
    | nil => simp [listIsPre] at h
    | cons d ds =>
      simp only [listIsPre, Bool.and_eq_true, decide_eq_true_eq] at h
      rcases List.mem_cons.mp hx with rfl | hx'
      · exact h.1 ▸ List.mem_cons_self _ _
      · exact List.mem_cons_of_mem _ (ih hx' ds h.2)

theorem listHasSub_of_isPre (n l : List Char) (h : listIsPre n l = true) :
    listHasSub n l = true := by
  cases l with
  | nil => exact h
  | cons c t => simp [listHasSub, h]

theorem listHasSub_append (n pre suf : List Char) :
    listHasSub n (pre ++ (n ++ suf)) = true := by
  induction pre with
  | nil =>
    exact listHasSub_of_isPre _ _ (by simpa using listIsPre_append_self n suf)
  | cons p ps ih =>
    show listHasSub n (p :: (ps ++ (n ++ suf))) = true
    by_cases hp : listIsPre n (p :: (ps ++ (n ++ suf))) = true
    · simp [listHasSub, hp]
    · simp only [listHasSub, Bool.not_eq_true] at hp ⊢
      rw [hp]
      simpa using ih

theorem listHasSub_false_of_not_mem (n hay : List Char) (x : Char)
    (hx : x ∈ n) (hh : x ∉ hay) : listHasSub n hay = false := by
  induction hay with
  | nil =>
    cases n with
    | nil => cases hx
    | cons c cs => rfl
  | cons h t ih =>
    have hp : listIsPre n (h :: t) = false := by
      by_contra hc
      rw [Bool.not_eq_false] at hc
      exact hh (listIsPre_mem n x hx _ hc)
    simp only [listHasSub, hp, Bool.false_eq_true, if_false]
    exact ih (fun hm => hh (List.mem_cons_of_mem _ hm))

theorem pyIn_of_isPre (n hay : String) (h : listIsPre n.data hay.data = true) :
    pyIn n hay = true := listHasSub_of_isPre _ _ h

theorem pyIn_concat_left (n lit rest : String) (h : listIsPre n.data lit.data = true) :
    pyIn n (lit ++ rest) = true := by
  unfold pyIn
  rw [String.data_append]
  exact listHasSub_of_isPre _ _ (listIsPre_mono_append _ _ _ h)

theorem pyIn_false_of_char (n hay : String) (x : Char) (hx : x ∈ n.data)
    (hh : x ∉ hay.data) : pyIn n hay = false :=
  listHasSub_false_of_not_mem _ _ x hx hh

theorem pyIn_middle (n pre suf : String) : pyIn n (pre ++ n ++ suf) = true := by
  unfold pyIn
  rw [String.data_append, String.data_append, List.append_assoc]
  exact listHasSub_append _ _ _

theorem natDigitChar_toNat (n : Nat) : (natDigitChar n).toNat = 48 + n % 10 := by
  unfold natDigitChar
  exact charToNat_ofNat_small _ (by omega)

theorem natReprAux_digits (fuel : Nat) : ∀ (n : Nat) (acc : List Char),
    (∀ c ∈ acc, 48 ≤ c.toNat ∧ c.toNat ≤ 57) →
    ∀ c ∈ natReprAux fuel n acc, 48 ≤ c.toNat ∧ c.toNat ≤ 57 := by
  induction fuel with
  | zero =>
    intro n acc hacc c hc
    rcases List.mem_cons.mp hc with rfl | h
    · rw [natDigitChar_toNat]; omega
    · exact hacc c h
  | succ fuel ih =>
    intro n acc hacc c hc
    unfold natReprAux at hc
    split at hc
    · rcases List.mem_cons.mp hc with rfl | h
      · rw [natDigitChar_toNat]; omega
      · exact hacc c h
    · refine ih (n / 10) _ ?_ c hc
      intro d hd
      rcases List.mem_cons.mp hd with rfl | h
      · rw [natDigitChar_toNat]; omega
      · exact hacc d h

theorem natRepr_digits (n : Nat) : ∀ c ∈ (natRepr n).data, 48 ≤ c.toNat ∧ c.toNat ≤ 57 :=
  natReprAux_digits n n [] (by intro c hc; cases hc)

/-! ## Claim C7 — token estimator/validator -/

/-- C7: the token validator computes `estimated_tokens = floor(len(prompt) * 0.25)`;
an empty prompt is invalid with zero tokens; a non-empty prompt is valid
exactly when the estimate is at most the ceiling (so an estimate equal to
the ceiling is valid and one above it is invalid); within the valid range
the message carries the warning marker exactly when the estimate is
strictly above 75% of the ceiling, and at or below 75% the message carries
the confirming marker. -/
theorem claim_C7_token_validator (p : String) (hp : p ≠ "") :
    (validate_and_estimate_tokens "").1 = false ∧
    (validate_and_estimate_tokens "").2.2 = 0 ∧
    (validate_and_estimate_tokens p).2.2 = pyLen p / 4 ∧
    ((validate_and_estimate_tokens p).1 = true ↔ pyLen p / 4 ≤ MAX_REQUEST_TOKENS) ∧
    (pyLen p / 4 ≤ MAX_REQUEST_TOKENS →
      (pyIn "⚠️" (validate_and_estimate_tokens p).2.1 = true ↔
        MAX_REQUEST_TOKENS * 3 / 4 < pyLen p / 4)) ∧
    (pyLen p / 4 ≤ MAX_REQUEST_TOKENS * 3 / 4 →
      pyIn "✅" (validate_and_estimate_tokens p).2.1 = true) := by
  have warnNotMem : ∀ (m : Nat) (lit1 lit2 : String),
      ('⚠' ∉ lit1.data) → ('⚠' ∉ lit2.data) →
      pyIn "⚠️" (lit1 ++ natRepr m ++ lit2) = false := by
    intro m lit1 lit2 h1 h2
    refine pyIn_false_of_char _ _ '⚠' (by decide) ?_
    rw [String.data_append, String.data_append]
    intro hmem
    rcases List.mem_append.mp hmem with hmem' | hc
    · rcases List.mem_append.mp hmem' with hc | hc
      · exact h1 hc
      · have hd := natRepr_digits m '⚠' hc
        have he : ('⚠').toNat = 9888 := by decide
        omega
    · exact h2 hc
  have warnHead : ∀ (lit : String) (rest : List Char),
      listIsPre "⚠️".data lit.data = true →
      listHasSub "⚠️".data (lit.data ++ rest) = true := by
    intro lit rest h
    exact listHasSub_of_isPre _ _ (listIsPre_mono_append _ _ _ h)
  unfold validate_and_estimate_tokens
  rw [if_neg hp, if_pos rfl]
  dsimp only
  refine ⟨rfl, rfl, ?_, ?_, ?_, ?_⟩
  · by_cases h1 : pyLen p / 4 > MAX_REQUEST_TOKENS
    · rw [if_pos h1]
    · rw [if_neg h1]
      by_cases h2 : pyLen p / 4 > MAX_REQUEST_TOKENS * 3 / 4
      · rw [if_pos h2]
      · rw [if_neg h2]
  · by_cases h1 : pyLen p / 4 > MAX_REQUEST_TOKENS
    · rw [if_pos h1]
      constructor
      · intro h; exact absurd h (by simp)
      · intro h; omega
    · rw [if_neg h1]
      constructor
      · intro _; omega
      · intro _
        by_cases h2 : pyLen p / 4 > MAX_REQUEST_TOKENS * 3 / 4
        · rw [if_pos h2]
        · rw [if_neg h2]
  · intro hle
    rw [if_neg (by omega)]
    by_cases h2 : pyLen p / 4 > MAX_REQUEST_TOKENS * 3 / 4
    · rw [if_pos h2]
      constructor
      · intro _; exact h2
      · intro _
        unfold pyIn
        simp only [String.data_append, List.append_assoc]
        exact warnHead "⚠️ Large request: ~" _ (by decide)
    · rw [if_neg h2]
      constructor
      · intro h
        have hfalse := warnNotMem (pyLen p / 4) "✅ Request size OK: ~" " tokens"
          (by decide) (by decide)
        rw [h] at hfalse
        exact absurd hfalse (by simp)
      · intro h; omega
  · intro hle75
    rw [if_neg (by omega), if_neg (by omega)]
    unfold pyIn
    simp only [String.data_append, List.append_assoc]
    exact listHasSub_of_isPre _ _
      (listIsPre_mono_append _ _ _ (by decide : listIsPre "✅".data "✅ Request size OK: ~".data = true))

/-- Witness for C7 at the concrete prompt `"abcdefgh"`. -/
theorem claim_C7_witness :
    (validate_and_estimate_tokens "abcdefgh").2.2 = pyLen "abcdefgh" / 4 :=
  (claim_C7_token_validator "abcdefgh" (by decide)).2.2.1

/-! ## Claim C4 — archive path sanitizer -/

/-- C4: `sanitize_zip_member_path` fails — returning no path and a
non-null error reason — exactly when the normalised path is absolute,
contains a `..` segment, or reduces to no segments; on every other path it
returns the `/`-joined safe segments with no error.  The model is a total
function, so no exception can escape. -/
theorem claim_C4_path_sanitizer (m : String) :
    ((pyStartsWith (pyReplace m "\\" "/") "/" = true ∨
       sanitizeSegments m = [] ∨ ".." ∈ sanitizeSegments m) →
      (sanitize_zip_member_path m).1 = none ∧ (sanitize_zip_member_path m).2 ≠ none) ∧
    (¬ (pyStartsWith (pyReplace m "\\" "/") "/" = true ∨
        sanitizeSegments m = [] ∨ ".." ∈ sanitizeSegments m) →
      sanitize_zip_member_path m = (some (joinWithChar '/' (sanitizeSegments m)), none)) := by
  by_cases hm : m = ""
  · subst hm
    constructor
    · intro _
      exact ⟨rfl, by simp [sanitize_zip_member_path]⟩
    · intro h
      exact absurd (Or.inr (Or.inl (by decide))) h
  · unfold sanitize_zip_member_path
    rw [if_neg hm]
    dsimp only
    by_cases habs : pyStartsWith (pyReplace m "\\" "/") "/" = true
    · rw [if_pos habs]
      constructor
      · intro _; exact ⟨rfl, by simp⟩
      · intro h; exact absurd (Or.inl habs) h
    · rw [if_neg habs]
      have hseg : ((pySplitChar (pyReplace m "\\" "/") '/').filter
          (fun p => p ≠ "" && p ≠ ".")) = sanitizeSegments m := rfl
      rw [hseg]
      by_cases hemp : sanitizeSegments m = []
      · rw [if_pos hemp]
        constructor
        · intro _; exact ⟨rfl, by simp⟩
        · intro h; exact absurd (Or.inr (Or.inl hemp)) h
      · rw [if_neg hemp]
        by_cases htr : (sanitizeSegments m).contains ".." = true
        · rw [if_pos htr]
          have hmem : (".." : String) ∈ sanitizeSegments m := by
            simpa [List.contains] using htr
          constructor
          · intro _; exact ⟨rfl, by simp⟩
          · intro h; exact absurd (Or.inr (Or.inr hmem)) h
        · rw [if_neg htr]
          constructor
          · intro h
            rcases h with h | h | h
            · exact absurd h habs
            · exact absurd h hemp
            · exact absurd h (by simpa [List.contains] using htr)
          · intro _; rfl

/-- Witness for C4: a traversal path is rejected with a reason, and a
normal relative path is passed through. -/
theorem claim_C4_witness :
    ((sanitize_zip_member_path "../etc/passwd").1 = none ∧
      (sanitize_zip_member_path "../etc/passwd").2 ≠ none) ∧
    sanitize_zip_member_path "a\\b/./c" = (some "a/b/c", none) :=
  ⟨(claim_C4_path_sanitizer "../etc/passwd").1 (by right; right; decide),
   by
     have h := (claim_C4_path_sanitizer "a\\b/./c").2 (by decide)
     simpa using h⟩

/-! ## Claim C10 — items with missing/zero/negative size -/

/-- C10: an uploaded item whose `size` attribute is missing, zero or
negative is skipped entirely — it produces no `CodeFile`, contributes
exactly one warning (which names it), is not counted toward the global
size budget, and the remaining items are processed as if it were
absent. -/
theorem claim_C10_invalid_size (it : UploadedItem) (rest : List UploadedItem)
    (h : it.size.getD 0 ≤ 0) :
    process_uploaded_files (it :: rest) =
      ((process_uploaded_files rest).1,
       ("⚠️ File '" ++ it.name ++ "' has invalid size. Skipping.") ::
         (process_uploaded_files rest).2) ∧
    (processFilesLoop (it :: rest) 0).2.2 = (processFilesLoop rest 0).2.2 ∧
    pyIn it.name ("⚠️ File '" ++ it.name ++ "' has invalid size. Skipping.") = true := by
  refine ⟨?_, ?_, pyIn_middle it.name "⚠️ File '" "' has invalid size. Skipping."⟩
  · unfold process_uploaded_files
    dsimp only
    conv_lhs => rw [processFilesLoop]
    dsimp only
    rw [if_pos h]
  · show (processFilesLoop (it :: rest) 0).2.2 = (processFilesLoop rest 0).2.2
    conv_lhs => rw [processFilesLoop]
    dsimp only
    rw [if_pos h]

/-- Witness for C10 at an item with a missing `size` attribute. -/
theorem claim_C10_witness :
    process_uploaded_files [UploadedItem.mk "f.py" none (.file [104])] =
      ((process_uploaded_files []).1,
       ("⚠️ File '" ++ "f.py" ++ "' has invalid size. Skipping.") ::
         (process_uploaded_files []).2) :=
  (claim_C10_invalid_size ⟨"f.py", none, .file [104]⟩ [] (by decide)).1

/-! ## Claim C2 — HTTP 401 behaviour of the streaming review client -/

/-- C2 counterexample: with a valid key and prompt, a 401 transport
failure yields **two** chunks — the request-id preamble and the
authentication message — not exactly one as claimed; the word
`Authentication` appears in the second chunk only. -/
theorem claim_C2_counterexample :
    stream_grok_review "key" "0123456789" "ab12cd34" (.httpError 401 "" "401 Client Error") =
      ["*Request ID: `ab12cd34`*\n\n",
       "❌ **Authentication Error**: Invalid API key. Please verify your OpenRouter credentials at https://openrouter.ai/keys"] ∧
    (stream_grok_review "key" "0123456789" "ab12cd34"
        (.httpError 401 "" "401 Client Error")).length = 2 := by
  constructor
  · rfl
  · rfl

/-- C2 (amended): when the HTTP request fails with status 401 (for a
non-empty key, a non-empty prompt small enough to produce neither the
size-rejection nor the size-warning chunk, and the 8-character lower-case
request id), the generator yields exactly two chunks — the request-id
preamble followed by the authentication message — exactly one of which
contains the word "Authentication", and no exception reaches the caller
(the generator is a total function into chunk lists). -/
theorem claim_C2_amended (api_key user_prompt request_id detail errText : String)
    (hk : api_key ≠ "") (hp : user_prompt ≠ "")
    (hsize : pyLen user_prompt / 4 ≤ MAX_REQUEST_TOKENS * 3 / 4)
    (hrid : 'A' ∉ request_id.data) :
    stream_grok_review api_key user_prompt request_id (.httpError 401 detail errText) =
      ["*Request ID: `" ++ request_id ++ "`*\n\n",
       "❌ **Authentication Error**: Invalid API key. Please verify your OpenRouter credentials at https://openrouter.ai/keys"] ∧
    ((stream_grok_review api_key user_prompt request_id
        (.httpError 401 detail errText)).filter
      (fun c => pyIn "Authentication" c)).length = 1 := by
  have hmain : stream_grok_review api_key user_prompt request_id (.httpError 401 detail errText) =
      ["*Request ID: `" ++ request_id ++ "`*\n\n",
       "❌ **Authentication Error**: Invalid API key. Please verify your OpenRouter credentials at https://openrouter.ai/keys"] := by
    unfold stream_grok_review
    rw [if_neg hk, if_neg hp]
    unfold validate_and_estimate_tokens
    rw [if_neg hp]
    dsimp only
    have hM : MAX_REQUEST_TOKENS = 200000 := rfl
    rw [if_neg (by omega : ¬ pyLen user_prompt / 4 > MAX_REQUEST_TOKENS),
        if_neg (by omega : ¬ pyLen user_prompt / 4 > MAX_REQUEST_TOKENS * 3 / 4)]
    have hnowarn : pyIn "⚠️" ("✅ Request size OK: ~" ++ natRepr (pyLen user_prompt / 4) ++ " tokens") = false := by
      refine pyIn_false_of_char _ _ '⚠' (by decide) ?_
      simp only [String.data_append, List.append_assoc, List.mem_append]
      rintro (hc | hc | hc)
      · exact absurd hc (by decide)
      · have hd := natRepr_digits (pyLen user_prompt / 4) '⚠' hc
        have he : ('⚠').toNat = 9888 := by decide
        omega
      · exact absurd hc (by decide)
    rw [hnowarn]
    rfl
  refine ⟨hmain, ?_⟩
  rw [hmain]
  have h1 : pyIn "Authentication" ("*Request ID: `" ++ request_id ++ "`*\n\n") = false := by
    refine pyIn_false_of_char _ _ 'A' (by decide) ?_
    simp only [String.data_append, List.append_assoc, List.mem_append]
    rintro (hc | hc | hc)
    · exact absurd hc (by decide)
    · exact hrid hc
    · exact absurd hc (by decide)
  have h2 : pyIn "Authentication"
      "❌ **Authentication Error**: Invalid API key. Please verify your OpenRouter credentials at https://openrouter.ai/keys" = true := by
    decide
  simp [List.filter, h1, h2]

/-- Witness for C2 (amended) at concrete inputs. -/
theorem claim_C2_witness :
    stream_grok_review "key" "0123456789" "ab12cd34" (.httpError 401 "" "401") =
      ["*Request ID: `" ++ "ab12cd34" ++ "`*\n\n",
       "❌ **Authentication Error**: Invalid API key. Please verify your OpenRouter credentials at https://openrouter.ai/keys"] :=
  (claim_C2_amended "key" "0123456789" "ab12cd34" "" "401"
    (by decide) (by decide) (by decide) (by decide)).1

/-! ## Claim C3 — global size budget -/

theorem processFilesLoop_total_nobreak (items : List UploadedItem) : ∀ (t : Int),
    (processFilesLoop items t).2.2 ≤ (MAX_TOTAL_SIZE : Int) →
    (processFilesLoop items t).2.2 = t + posSizeSum items := by
  induction items with
  | nil => intro t _; simp [processFilesLoop, posSizeSum]
  | cons it rest ih =>
    intro t hle
    simp only [processFilesLoop] at hle ⊢
    by_cases h0 : it.size.getD 0 ≤ 0
    · simp only [if_pos h0] at hle ⊢
      rw [ih t hle]
      simp only [posSizeSum, List.map_cons, List.sum_cons]
      have hmax : max (it.size.getD 0) 0 = 0 := by omega
      rw [hmax]
      omega
    · simp only [if_neg h0] at hle ⊢
      by_cases hov : t + it.size.getD 0 > (MAX_TOTAL_SIZE : Int)
      · simp only [if_pos hov] at hle
        omega
      · simp only [if_neg hov] at hle ⊢
        rw [ih _ hle]
        simp only [posSizeSum, List.map_cons, List.sum_cons]
        have hmax : max (it.size.getD 0) 0 = it.size.getD 0 := by omega
        rw [hmax]
        omega

theorem processFilesLoop_break (it : UploadedItem) (s : Int)
    (hs : it.size = some s) (hpos : 0 < s) :
    ∀ (pre : List UploadedItem) (post : List UploadedItem) (t : Int),
    (processFilesLoop pre t).2.2 ≤ (MAX_TOTAL_SIZE : Int) →
    (MAX_TOTAL_SIZE : Int) < (processFilesLoop pre t).2.2 + s →
    processFilesLoop (pre ++ it :: post) t =
      ((processFilesLoop pre t).1,
       (processFilesLoop pre t).2.1 ++ [globalBudgetWarning],
       (processFilesLoop pre t).2.2 + s) := by
  intro pre
  induction pre with
  | nil =>
    intro post t hle hgt
    simp only [processFilesLoop, List.nil_append] at hle hgt ⊢
    rw [hs]
    simp only [Option.getD_some]
    rw [if_neg (by omega), if_pos (by omega)]
    simp [globalBudgetWarning]
  | cons p pre' ih =>
    intro post t hle hgt
    rw [List.cons_append]
    simp only [processFilesLoop] at hle hgt ⊢
    by_cases h0 : p.size.getD 0 ≤ 0
    · simp only [if_pos h0] at hle hgt ⊢
      rw [ih post t hle hgt]
      simp
    · simp only [if_neg h0] at hle hgt ⊢
      by_cases hov : t + p.size.getD 0 > (MAX_TOTAL_SIZE : Int)
      · simp only [if_pos hov] at hle
        omega
      · simp only [if_neg hov] at hle hgt ⊢
        rw [ih post _ hle hgt]
        simp [List.append_assoc]

/-- C3 (amended): the ingestor's running total is the sum of the
**reported** positive `size` attributes of the items examined — not the
accepted (possibly truncated) content length — and the first time adding
an item's reported size pushes the total over the global cap, that item
is not processed, no later item is examined, and exactly one explanatory
warning is appended as the final warning. -/
theorem claim_C3_amended :
    (∀ (items : List UploadedItem),
       (processFilesLoop items 0).2.2 ≤ (MAX_TOTAL_SIZE : Int) →
       (processFilesLoop items 0).2.2 = posSizeSum items) ∧
    (∀ (pre : List UploadedItem) (it : UploadedItem) (post : List UploadedItem) (s : Int),
       it.size = some s → 0 < s →
       (processFilesLoop pre 0).2.2 ≤ (MAX_TOTAL_SIZE : Int) →
       (MAX_TOTAL_SIZE : Int) < (processFilesLoop pre 0).2.2 + s →
       processFilesLoop (pre ++ it :: post) 0 =
         ((processFilesLoop pre 0).1,
          (processFilesLoop pre 0).2.1 ++ [globalBudgetWarning],
          (processFilesLoop pre 0).2.2 + s)) := by
  constructor
  · intro items h
    simpa using processFilesLoop_total_nobreak items 0 h
  · intro pre it post s hs hpos hle hgt
    exact processFilesLoop_break it s hs hpos pre post 0 hle hgt

/-- C3 counterexample: one supported file whose reported size is 5 but
whose content is rejected as too short — the running total is 5 while the
accepted (possibly truncated) content length is 0, so the claimed equality
fails. -/
theorem claim_C3_counterexample :
    (processFilesLoop [UploadedItem.mk "a.py" (some 5) (.file (strToBytes "hi"))] 0).2.2 = 5 ∧
    ((process_uploaded_files [UploadedItem.mk "a.py" (some 5) (.file (strToBytes "hi"))]).1.map
      (fun f => (pyLen f.content : Int))).sum = 0 ∧
    (5 : Int) ≠ 0 := by
  refine ⟨by decide, by decide, by decide⟩

/-- Witness for C3 (amended): the no-overflow equality on a two-item
list, and the break behaviour when a 51MB item follows a small one. -/
theorem claim_C3_witness :
    (processFilesLoop [UploadedItem.mk "a.py" (some 7) (.file (strToBytes "0123456789xy"))] 0).2.2 =
      posSizeSum [UploadedItem.mk "a.py" (some 7) (.file (strToBytes "0123456789xy"))] ∧
    processFilesLoop
        ([UploadedItem.mk "a.py" (some 7) (.file (strToBytes "0123456789xy"))] ++
          UploadedItem.mk "big.py" (some 53477376) (.file [104]) ::
            [UploadedItem.mk "b.py" (some 3) (.file (strToBytes "0123456789xy"))]) 0 =
      ((processFilesLoop [UploadedItem.mk "a.py" (some 7) (.file (strToBytes "0123456789xy"))] 0).1,
       (processFilesLoop [UploadedItem.mk "a.py" (some 7) (.file (strToBytes "0123456789xy"))] 0).2.1 ++
         [globalBudgetWarning],
       (processFilesLoop [UploadedItem.mk "a.py" (some 7) (.file (strToBytes "0123456789xy"))] 0).2.2 + 53477376) :=
  ⟨claim_C3_amended.1 [UploadedItem.mk "a.py" (some 7) (.file (strToBytes "0123456789xy"))] (by decide),
   claim_C3_amended.2 [UploadedItem.mk "a.py" (some 7) (.file (strToBytes "0123456789xy"))]
     (UploadedItem.mk "big.py" (some 53477376) (.file [104]))
     [UploadedItem.mk "b.py" (some 3) (.file (strToBytes "0123456789xy"))]
     53477376 rfl (by decide) (by decide) (by decide)⟩

/-! ## Supporting lemmas: UTF-8 round trips and truncation -/

theorem utf8Step_length (l : List Nat) (cp : Nat) (rest : List Nat)
    (h : utf8Step l = some (cp, rest)) : rest.length < l.length := by
  cases l with
  | nil => simp [utf8Step] at h
  | cons b bs =>
    simp only [utf8Step] at h
    by_cases h1 : b < 0x80
    · rw [if_pos h1] at h
      injection h with h'
      injection h' with ha hb
      subst hb; simp
    · rw [if_neg h1] at h
      by_cases h2 : 0xC2 ≤ b ∧ b ≤ 0xDF
      · rw [if_pos h2] at h
        cases bs with
        | nil => cases h
        | cons b2 bs2 =>
          dsimp only at h
          split at h
          · injection h with h'; injection h' with ha hb; subst hb
            simp only [List.length_cons]; omega
          · cases h
      · rw [if_neg h2] at h
        by_cases h3 : 0xE0 ≤ b ∧ b ≤ 0xEF
        · rw [if_pos h3] at h
          cases bs with
          | nil => cases h
          | cons b2 bs' =>
            cases bs' with
            | nil => cases h
            | cons b3 bs3 =>
              dsimp only at h
              split at h
              · injection h with h'; injection h' with ha hb; subst hb
                simp only [List.length_cons]; omega
              · cases h
        · rw [if_neg h3] at h
          by_cases h4 : 0xF0 ≤ b ∧ b ≤ 0xF4
          · rw [if_pos h4] at h
            cases bs with
            | nil => cases h
            | cons b2 bs' =>
              cases bs' with
              | nil => cases h
              | cons b3 bs'' =>
                cases bs'' with
                | nil => cases h
                | cons b4 bs4 =>
                  dsimp only at h
                  split at h
                  · injection h with h'; injection h' with ha hb; subst hb
                    simp only [List.length_cons]; omega
                  · cases h
          · rw [if_neg h4] at h
            cases h

theorem utf8DecodeAux_irrel (fuel : Nat) : ∀ (l : List Nat), l.length ≤ fuel →
    utf8DecodeAux fuel l = utf8Decode l := by
  induction fuel using Nat.strong_induction_on with
  | _ fuel ih =>
    intro l hl
    cases l with
    | nil => cases fuel <;> rfl
    | cons b bs =>
      cases fuel with
      | zero => simp at hl
      | succ fuel' =>
        show utf8DecodeAux (fuel' + 1) (b :: bs) = utf8DecodeAux (b :: bs).length (b :: bs)
        simp only [List.length_cons]
        rw [utf8DecodeAux, utf8DecodeAux]
        cases hstep : utf8Step (b :: bs) with
        | none => rfl
        | some pr =>
          obtain ⟨cp, rest⟩ := pr
          have hlen := utf8Step_length (b :: bs) cp rest hstep
          simp only [List.length_cons] at hlen hl
          dsimp only
          rw [ih fuel' (by omega) rest (by omega),
              ih bs.length (by omega) rest (by omega)]

theorem utf8Decode_step_some (l : List Nat) (cp : Nat) (rest : List Nat)
    (h : utf8Step l = some (cp, rest)) :
    utf8Decode l = (utf8Decode rest).map (cp :: ·) := by
  cases l with
  | nil => simp [utf8Step] at h
  | cons b bs =>
    have hlen := utf8Step_length _ _ _ h
    show utf8DecodeAux (b :: bs).length (b :: bs) = _
    simp only [List.length_cons]
    rw [utf8DecodeAux, h]
    simp only [List.length_cons] at hlen
    dsimp only
    rw [utf8DecodeAux_irrel bs.length rest (by omega)]

theorem utf8Decode_step_none (b : Nat) (bs : List Nat)
    (h : utf8Step (b :: bs) = none) : utf8Decode (b :: bs) = none := by
  show utf8DecodeAux (b :: bs).length (b :: bs) = none
  simp only [List.length_cons]
  rw [utf8DecodeAux, h]

theorem utf8Step_encodeCp (n : Nat) (h : ValidCp n) (rest : List Nat) :
    utf8Step (utf8EncodeCp n ++ rest) = some (n, rest) := by
  obtain ⟨hlt, hsur⟩ := h
  unfold utf8EncodeCp
  by_cases hA : n < 0x80
  · rw [if_pos hA]
    simp only [List.cons_append, List.nil_append, utf8Step]
    rw [if_pos hA]
  · rw [if_neg hA]
    by_cases hB : n < 0x800
    · rw [if_pos hB]
      simp only [List.cons_append, List.nil_append, utf8Step]
      rw [if_neg (by omega), if_pos (by omega : 0xC2 ≤ 0xC0 + n / 0x40 ∧ 0xC0 + n / 0x40 ≤ 0xDF)]
      rw [if_pos (by omega : 0x80 ≤ 0x80 + n % 0x40 ∧ 0x80 + n % 0x40 ≤ 0xBF)]
      have he : (0xC0 + n / 0x40 - 0xC0) * 0x40 + (0x80 + n % 0x40 - 0x80) = n := by omega
      rw [he]
    · rw [if_neg hB]
      by_cases hC : n < 0x10000
      · rw [if_pos hC]
        simp only [List.cons_append, List.nil_append, utf8Step]
        have hc3 : ((0xE0 + n / 0x1000 = 0xE0 → 0xA0 ≤ 0x80 + n / 0x40 % 0x40) ∧
            (0xE0 + n / 0x1000 = 0xED → 0x80 + n / 0x40 % 0x40 ≤ 0x9F) ∧
            0x80 ≤ 0x80 + n / 0x40 % 0x40 ∧ 0x80 + n / 0x40 % 0x40 ≤ 0xBF) ∧
            0x80 ≤ 0x80 + n % 0x40 ∧ 0x80 + n % 0x40 ≤ 0xBF :=
          ⟨⟨fun he => by omega, fun he => by omega, by omega, by omega⟩, by omega, by omega⟩
        rw [if_neg (by omega), if_neg (by omega),
            if_pos (by omega : 0xE0 ≤ 0xE0 + n / 0x1000 ∧ 0xE0 + n / 0x1000 ≤ 0xEF),
            if_pos hc3]
        have he : (0xE0 + n / 0x1000 - 0xE0) * 0x1000 + (0x80 + n / 0x40 % 0x40 - 0x80) * 0x40 +
            (0x80 + n % 0x40 - 0x80) = n := by omega
        rw [he]
      · rw [if_neg hC]
        simp only [List.cons_append, List.nil_append, utf8Step]
        have hc4 : ((0xF0 + n / 0x40000 = 0xF0 → 0x90 ≤ 0x80 + n / 0x1000 % 0x40) ∧
            (0xF0 + n / 0x40000 = 0xF4 → 0x80 + n / 0x1000 % 0x40 ≤ 0x8F) ∧
            0x80 ≤ 0x80 + n / 0x1000 % 0x40 ∧ 0x80 + n / 0x1000 % 0x40 ≤ 0xBF) ∧
            0x80 ≤ 0x80 + n / 0x40 % 0x40 ∧ 0x80 + n / 0x40 % 0x40 ≤ 0xBF ∧
            0x80 ≤ 0x80 + n % 0x40 ∧ 0x80 + n % 0x40 ≤ 0xBF :=
          ⟨⟨fun he => by omega, fun he => by omega, by omega, by omega⟩, by omega, by omega, by omega, by omega⟩
        rw [if_neg (by omega), if_neg (by omega), if_neg (by omega),
            if_pos (by omega : 0xF0 ≤ 0xF0 + n / 0x40000 ∧ 0xF0 + n / 0x40000 ≤ 0xF4),
            if_pos hc4]
        have he : (0xF0 + n / 0x40000 - 0xF0) * 0x40000 + (0x80 + n / 0x1000 % 0x40 - 0x80) * 0x1000 +
            (0x80 + n / 0x40 % 0x40 - 0x80) * 0x40 + (0x80 + n % 0x40 - 0x80) = n := by omega
        rw [he]

theorem utf8Decode_encodeCp_append (n : Nat) (h : ValidCp n) (rest : List Nat) :
    utf8Decode (utf8EncodeCp n ++ rest) = (utf8Decode rest).map (n :: .) :=
  utf8Decode_step_some _ _ _ (utf8Step_encodeCp n h rest)

theorem utf8Decode_encode_append (cps : List Nat) (h : ∀ x ∈ cps, ValidCp x)
    (rest : List Nat) :
    utf8Decode (utf8Encode cps ++ rest) = (utf8Decode rest).map (cps ++ .) := by
  induction cps with
  | nil =>
    simp only [utf8Encode, List.map_nil, List.flatten_nil, List.nil_append]
    cases utf8Decode rest <;> rfl
  | cons c cs ih =>
    have hc : ValidCp c := h c (List.mem_cons_self _ _)
    have hcs : ∀ x ∈ cs, ValidCp x := fun x hx => h x (List.mem_cons_of_mem _ hx)
    have henc : utf8Encode (c :: cs) = utf8EncodeCp c ++ utf8Encode cs := by
      simp [utf8Encode]
    rw [henc, List.append_assoc, utf8Decode_encodeCp_append c hc, ih hcs]
    cases utf8Decode rest <;> rfl

theorem utf8Decode_encode (cps : List Nat) (h : ∀ x ∈ cps, ValidCp x) :
    utf8Decode (utf8Encode cps) = some cps := by
  have h2 := utf8Decode_encode_append cps h []
  rw [List.append_nil] at h2
  rw [h2]
  show Option.map _ (some []) = _
  simp

theorem utf8Decode_cons_ascii (b : Nat) (hb : b < 0x80) (bs : List Nat) :
    utf8Decode (b :: bs) = (utf8Decode bs).map (b :: .) := by
  apply utf8Decode_step_some
  simp only [utf8Step]
  rw [if_pos hb]

theorem utf8Decode_replicate (n b : Nat) (hb : b < 0x80) :
    utf8Decode (List.replicate n b) = some (List.replicate n b) := by
  induction n with
  | zero => rfl
  | succ k ih =>
    rw [List.replicate_succ, utf8Decode_cons_ascii b hb, ih]
    rfl

theorem utf8Step_take_encodeCp (n : Nat) (h : ValidCp n) (j : Nat)
    (h1 : 1 ≤ j) (h2 : j < (utf8EncodeCp n).length) :
    utf8Step ((utf8EncodeCp n).take j) = none := by
  obtain ⟨hlt, hsur⟩ := h
  unfold utf8EncodeCp at h2 ⊢
  by_cases hA : n < 0x80
  · rw [if_pos hA] at h2
    simp only [List.length_cons, List.length_nil] at h2
    omega
  · rw [if_neg hA] at h2 ⊢
    by_cases hB : n < 0x800
    · rw [if_pos hB] at h2 ⊢
      simp only [List.length_cons, List.length_nil] at h2
      have hj : j = 1 := by omega
      subst hj
      simp only [List.take_succ_cons, List.take_zero]
      simp only [utf8Step]
      rw [if_neg (by omega), if_pos (by omega : 0xC2 ≤ 0xC0 + n / 0x40 ∧ 0xC0 + n / 0x40 ≤ 0xDF)]
    · rw [if_neg hB] at h2 ⊢
      by_cases hC : n < 0x10000
      · rw [if_pos hC] at h2 ⊢
        simp only [List.length_cons, List.length_nil] at h2
        have hj : j = 1 ∨ j = 2 := by omega
        rcases hj with hj | hj <;> subst hj <;>
          simp only [List.take_succ_cons, List.take_zero] <;>
          simp only [utf8Step] <;>
          rw [if_neg (by omega), if_neg (by omega),
              if_pos (by omega : 0xE0 ≤ 0xE0 + n / 0x1000 ∧ 0xE0 + n / 0x1000 ≤ 0xEF)]
      · rw [if_neg hC] at h2 ⊢
        simp only [List.length_cons, List.length_nil] at h2
        have hj : j = 1 ∨ j = 2 ∨ j = 3 := by omega
        rcases hj with hj | hj | hj <;> subst hj <;>
          simp only [List.take_succ_cons, List.take_zero] <;>
          simp only [utf8Step] <;>
          rw [if_neg (by omega), if_neg (by omega), if_neg (by omega),
              if_pos (by omega : 0xF0 ≤ 0xF0 + n / 0x40000 ∧ 0xF0 + n / 0x40000 ≤ 0xF4)]

theorem utf8Decode_take_mid (cps : List Nat) (hcs : ∀ x ∈ cps, ValidCp x)
    (c : Nat) (hc : ValidCp c) (tail : List Nat) (cap : Nat)
    (hlow : (utf8Encode cps).length < cap)
    (hhigh : cap < (utf8Encode cps).length + (utf8EncodeCp c).length) :
    utf8Decode ((utf8Encode cps ++ utf8EncodeCp c ++ tail).take cap) = none := by
  have htake : (utf8Encode cps ++ utf8EncodeCp c ++ tail).take cap =
      utf8Encode cps ++ (utf8EncodeCp c).take (cap - (utf8Encode cps).length) := by
    rw [List.append_assoc, List.take_append_eq_append_take,
        List.take_of_length_le (by omega), List.take_append_eq_append_take]
    have hz : cap - (utf8Encode cps).length - (utf8EncodeCp c).length = 0 := by omega
    rw [hz, List.take_zero, List.append_nil]
  rw [htake, utf8Decode_encode_append cps hcs]
  have hnone : utf8Decode ((utf8EncodeCp c).take (cap - (utf8Encode cps).length)) = none := by
    have hstep := utf8Step_take_encodeCp c hc (cap - (utf8Encode cps).length)
      (by omega) (by omega)
    cases hBt : (utf8EncodeCp c).take (cap - (utf8Encode cps).length) with
    | nil =>
      have := congrArg List.length hBt
      simp only [List.length_take, List.length_nil] at this
      omega
    | cons b bs =>
      rw [hBt] at hstep
      exact utf8Decode_step_none b bs hstep
  rw [hnone]
  rfl

/-! ## Claim C9 — truncation inside a multi-byte UTF-8 sequence -/

/-- C9: when a supported file's raw bytes exceed the cap and the cap
boundary falls strictly inside the encoding of one multi-byte character
(the bytes are a valid encoding `cps ++ [c] ++ …` cut inside `c`), the
ingestor truncates the raw bytes first, the truncated bytes fail UTF-8
decoding, and the file is rejected with a could-not-decode warning
instead of being included as a truncated `CodeFile` (the truncation
warning has already been recorded at that point). -/
theorem claim_C9_multibyte_truncation (name : String) (sz : Option Int)
    (cps : List Nat) (c : Nat) (tail : List Nat) (cap : Nat)
    (hsupp : is_supported_file name = true)
    (hcs : ∀ x ∈ cps, ValidCp x) (hc : ValidCp c)
    (hmb : 2 ≤ (utf8EncodeCp c).length)
    (hlow : (utf8Encode cps).length < cap)
    (hhigh : cap < (utf8Encode cps).length + (utf8EncodeCp c).length) :
    (utf8Encode cps ++ utf8EncodeCp c ++ tail).length > cap ∧
    utf8Decode ((utf8Encode cps ++ utf8EncodeCp c ++ tail).take cap) = none ∧
    _process_regular_file ⟨name, sz, .file (utf8Encode cps ++ utf8EncodeCp c ++ tail)⟩ cap =
      ([], ["⚠️ File '" ++ name ++ "' truncated to " ++ natRepr (cap / (1024 * 1024)) ++ "MB",
            "⚠️ Could not decode '" ++ name ++ "' as UTF-8. Skipping."]) := by
  have hlen : (utf8Encode cps ++ utf8EncodeCp c ++ tail).length > cap := by
    simp only [List.length_append]
    omega
  have hdec := utf8Decode_take_mid cps hcs c hc tail cap hlow hhigh
  refine ⟨hlen, hdec, ?_⟩
  unfold _process_regular_file
  rw [if_neg (by simp [hsupp])]
  dsimp only
  rw [if_pos hlen, if_pos hlen]
  unfold _decode_and_validate_content
  rw [hdec]
  rfl

/-- Witness for C9: an 11-byte ASCII prefix followed by a three-byte
character, cut at byte 12. -/
theorem claim_C9_witness :
    _process_regular_file
        ⟨"a.py", some 1,
         .file (utf8Encode [48, 49, 50, 51, 52, 53, 54, 55, 56, 57, 97] ++
               utf8EncodeCp 0x4E2D ++ [])⟩ 12 =
      ([], ["⚠️ File '" ++ "a.py" ++ "' truncated to " ++ natRepr (12 / (1024 * 1024)) ++ "MB",
            "⚠️ Could not decode '" ++ "a.py" ++ "' as UTF-8. Skipping."]) :=
  (claim_C9_multibyte_truncation "a.py" (some 1)
    [48, 49, 50, 51, 52, 53, 54, 55, 56, 57, 97] 0x4E2D [] 12
    (by decide) (by decide) (by decide) (by decide) (by decide) (by decide)).2.2

/-! ## Claim C1 — the truncation boundary -/

/-- No `CodeFile` content the validator accepts is empty. -/
theorem decode_validate_some_ne (raw : List Nat) (name : String) (s : String)
    (ws : List String)
    (h : _decode_and_validate_content raw name = (some s, ws)) : s ≠ "" := by
  unfold _decode_and_validate_content at h
  cases hdec : utf8Decode raw with
  | none => rw [hdec] at h; cases h
  | some cps =>
    rw [hdec] at h
    dsimp only at h
    by_cases h1 : pyStrip (cpsToString cps) = ""
    · rw [if_pos h1] at h; cases h
    · rw [if_neg h1] at h
      by_cases h2 : pyLen (pyStrip (cpsToString cps)) < 10
      · rw [if_pos h2] at h; cases h
      · rw [if_neg h2] at h
        injection h with h' _
        injection h' with h''
        intro hs
        rw [← h''] at hs
        rw [hs] at h1
        exact h1 rfl

/-- A supported plain file exactly one byte over the cap, whose first
`cap` bytes decode and validate, is truncated to exactly those `cap`
bytes — with no trailing marker — and yields exactly one truncation
warning. -/
theorem processRegular_truncate (name : String) (sz : Option Int) (raw : List Nat)
    (cap : Nat) (s : String)
    (hsupp : is_supported_file name = true)
    (hlen : raw.length = cap + 1)
    (hdec : _decode_and_validate_content (raw.take cap) name = (some s, [])) :
    _process_regular_file ⟨name, sz, .file raw⟩ cap =
      ([⟨name, s⟩],
       ["⚠️ File '" ++ name ++ "' truncated to " ++ natRepr (cap / (1024 * 1024)) ++ "MB"]) := by
  have hs := decode_validate_some_ne _ _ _ _ hdec
  unfold _process_regular_file
  rw [if_neg (by simp [hsupp])]
  dsimp only
  rw [if_pos (by omega : raw.length > cap), if_pos (by omega : raw.length > cap)]
  rw [hdec]
  dsimp only
  rw [if_neg hs]
  simp

/-- A ZIP member whose directory-entry size is one byte over the cap is
skipped entirely — no `CodeFile`, one skipping warning — rather than
truncated. -/
theorem processZipMember_large_skip (m : ZipMember) (cap : Nat) (sf : String)
    (hdir : m.is_dir = false)
    (hsan : sanitize_zip_member_path m.filename = (some sf, none))
    (hsize : m.file_size = cap + 1) :
    processZipMember m cap =
      ([], ["⚠️ Skipping large file in ZIP: " ++ sf ++ " (" ++
             natRepr m.file_size ++ " bytes)"]) := by
  unfold processZipMember
  rw [if_neg (by simp [hdir])]
  rw [hsan]
  dsimp only
  rw [if_pos (by omega : m.file_size > cap)]

/-- C1 (amended): a plain supported file exactly one byte over the
per-file cap is truncated to exactly the first `cap` bytes (decoded), with
**no** trailing truncation marker, and exactly one truncation warning; a
ZIP member whose recorded size is one byte over the cap is not truncated
at all but skipped entirely with one skipping warning. -/
theorem claim_C1_truncation_boundary :
    (∀ (name : String) (sz : Option Int) (raw : List Nat) (cap : Nat) (s : String),
      is_supported_file name = true → raw.length = cap + 1 →
      _decode_and_validate_content (raw.take cap) name = (some s, []) →
      _process_regular_file ⟨name, sz, .file raw⟩ cap =
        ([⟨name, s⟩],
         ["⚠️ File '" ++ name ++ "' truncated to " ++ natRepr (cap / (1024 * 1024)) ++ "MB"])) ∧
    (∀ (m : ZipMember) (cap : Nat) (sf : String),
      m.is_dir = false →
      sanitize_zip_member_path m.filename = (some sf, none) →
      m.file_size = cap + 1 →
      processZipMember m cap =
        ([], ["⚠️ Skipping large file in ZIP: " ++ sf ++ " (" ++
               natRepr m.file_size ++ " bytes)"])) :=
  ⟨fun name sz raw cap s h1 h2 h3 => processRegular_truncate name sz raw cap s h1 h2 h3,
   fun m cap sf h1 h2 h3 => processZipMember_large_skip m cap sf h1 h2 h3⟩

/-- Witness for C1 (amended) at cap 16: a 17-byte ASCII file is truncated
to 16 bytes with one warning; a ZIP member recorded at 17 bytes is
skipped with one warning. -/
theorem claim_C1_witness :
    _process_regular_file ⟨"a.py", some 17, .file (List.replicate 17 97)⟩ 16 =
      ([⟨"a.py", String.mk (List.replicate 16 'a')⟩],
       ["⚠️ File '" ++ "a.py" ++ "' truncated to " ++ natRepr (16 / (1024 * 1024)) ++ "MB"]) ∧
    processZipMember ⟨"b.py", false, 17, []⟩ 16 =
      ([], ["⚠️ Skipping large file in ZIP: " ++ "b.py" ++ " (" ++ natRepr 17 ++ " bytes)"]) :=
  ⟨claim_C1_truncation_boundary.1 "a.py" (some 17) (List.replicate 17 97) 16
     (String.mk (List.replicate 16 'a')) (by decide) (by decide) (by decide),
   claim_C1_truncation_boundary.2 ⟨"b.py", false, 17, []⟩ 16 "b.py"
     (by decide) (by decide) (by decide)⟩

theorem dropWhile_replicate_false {p : Char → Bool} {a : Char} (h : p a = false)
    (n : Nat) : List.dropWhile p (List.replicate n a) = List.replicate n a := by
  cases n with
  | zero => rfl
  | succ k =>
    rw [List.replicate_succ, List.dropWhile_cons]
    simp [h]

theorem pyStrip_replicate_a (n : Nat) :
    pyStrip (String.mk (List.replicate n 'a')) = String.mk (List.replicate n 'a') := by
  unfold pyStrip
  have hp : isPySpace 'a' = false := by decide
  rw [dropWhile_replicate_false hp, List.reverse_replicate,
      dropWhile_replicate_false hp, List.reverse_replicate]

theorem decode_validate_replicate_a (n : Nat) (hn : 10 ≤ n) (name : String) :
    _decode_and_validate_content (List.replicate n 97) name =
      (some (String.mk (List.replicate n 'a')), []) := by
  unfold _decode_and_validate_content
  rw [utf8Decode_replicate n 97 (by omega)]
  dsimp only
  have hcps : cpsToString (List.replicate n 97) = String.mk (List.replicate n 'a') := by
    unfold cpsToString
    rw [List.map_replicate]
  rw [hcps, pyStrip_replicate_a]
  have hne : ¬ (String.mk (List.replicate n 'a') = "") := by
    intro hh
    have h2 : List.replicate n 'a' = ([] : List Char) := congrArg String.data hh
    rw [List.replicate_eq_nil_iff] at h2
    omega
  have hlen10 : ¬ (pyLen (String.mk (List.replicate n 'a')) < 10) := by
    show ¬ ((String.mk (List.replicate n 'a')).data.length < 10)
    have hd : (String.mk (List.replicate n 'a')).data = List.replicate n 'a' := rfl
    rw [hd, List.length_replicate]
    omega
  rw [if_neg hne, if_neg hlen10]

/-- C1 counterexample, at the production cap: a plain `a.py` of exactly
`MAX_FILE_SIZE + 1` ASCII bytes is accepted with content of length exactly
`MAX_FILE_SIZE` — the first `cap` bytes and nothing more.  The claim's
"cap length **plus** a fixed trailing truncation marker" would force the
content to be strictly longer than the cap for any non-empty marker, so
the claim as stated is false; the single truncation warning part does
hold. -/
theorem claim_C1_counterexample :
    _process_regular_file
        ⟨"a.py", some 10485761, .file (List.replicate (MAX_FILE_SIZE + 1) 97)⟩ MAX_FILE_SIZE =
      ([⟨"a.py", String.mk (List.replicate MAX_FILE_SIZE 'a')⟩],
       ["⚠️ File 'a.py' truncated to 10MB"]) ∧
    pyLen (String.mk (List.replicate MAX_FILE_SIZE 'a')) = MAX_FILE_SIZE := by
  constructor
  · have hdec : _decode_and_validate_content
        ((List.replicate (MAX_FILE_SIZE + 1) 97).take MAX_FILE_SIZE) "a.py" =
        (some (String.mk (List.replicate MAX_FILE_SIZE 'a')), []) := by
      rw [List.take_replicate]
      rw [show min MAX_FILE_SIZE (MAX_FILE_SIZE + 1) = MAX_FILE_SIZE by omega]
      exact decode_validate_replicate_a MAX_FILE_SIZE (by decide) "a.py"
    have h := processRegular_truncate "a.py" (some 10485761)
      (List.replicate (MAX_FILE_SIZE + 1) 97) MAX_FILE_SIZE
      (String.mk (List.replicate MAX_FILE_SIZE 'a'))
      (by decide) (by simp) hdec
    rw [h]
    have hw : ("⚠️ File '" ++ "a.py" ++ "' truncated to " ++
        natRepr (MAX_FILE_SIZE / (1024 * 1024)) ++ "MB" : String) =
        "⚠️ File 'a.py' truncated to 10MB" := by decide
    rw [hw]
  · show (String.mk (List.replicate MAX_FILE_SIZE 'a')).data.length = MAX_FILE_SIZE
    have hd : (String.mk (List.replicate MAX_FILE_SIZE 'a')).data =
        List.replicate MAX_FILE_SIZE 'a' := rfl
    rw [hd, List.length_replicate]

/-! ## Claim C6 — two content deltas then `[DONE]` -/

theorem strToBytes_decode (s : String) :
    utf8Decode (strToBytes s) = some (s.data.map Char.toNat) := by
  unfold strToBytes
  apply utf8Decode_encode
  intro x hx
  simp only [List.mem_map] at hx
  obtain ⟨c, _, rfl⟩ := hx
  have hv := c.valid
  unfold UInt32.isValidChar Nat.isValidChar at hv
  show Char.toNat c < 0x110000 ∧ ¬ (0xD800 ≤ Char.toNat c ∧ Char.toNat c ≤ 0xDFFF)
  unfold Char.toNat
  rcases hv with h | ⟨h1, h2⟩
  · exact ⟨by omega, by omega⟩
  · exact ⟨by omega, by omega⟩

theorem cpsToString_toNat (s : String) : cpsToString (s.data.map Char.toNat) = s := by
  unfold cpsToString
  rw [List.map_map]
  have hcomp : (Char.ofNat ∘ Char.toNat) = id := funext fun c => Char.ofNat_toNat c
  rw [hcomp, List.map_id]

theorem utf8EncodeCp_ne_nil (n : Nat) : utf8EncodeCp n ≠ [] := by
  unfold utf8EncodeCp
  split_ifs <;> simp

theorem strToBytes_ne_nil (s : String) (h : s.data ≠ []) : strToBytes s ≠ [] := by
  unfold strToBytes utf8Encode
  cases hd : s.data with
  | nil => exact absurd hd h
  | cons c cs =>
    simp only [List.map_cons, List.flatten_cons]
    intro hc
    rcases List.append_eq_nil.mp hc with ⟨h1, _⟩
    exact utf8EncodeCp_ne_nil _ h1

theorem pyStartsWith_data_append (pre s : String) : pyStartsWith (pre ++ s) pre = true := by
  unfold pyStartsWith
  rw [String.data_append]
  exact listIsPre_append_self _ _

theorem pyDrop_data_front (s : String) : pyDrop ("data: " ++ s) 6 = s := by
  unfold pyDrop
  rw [String.data_append]
  rw [show (6 : Nat) = ("data: " : String).data.length from rfl, List.drop_left]

/-- One SSE line with a parsable payload carrying a non-empty string
content yields that content and continues. -/
theorem stream_chat_body_content_line (p cnt : String) (j : Json)
    (rest : List (List Nat))
    (hp : jsonParse (pyStrip p) = some j)
    (he : extractDeltaContent j = some cnt) (hn : cnt ≠ "") :
    stream_chat_body (strToBytes ("data: " ++ p) :: rest) =
      cnt :: stream_chat_body rest := by
  rw [stream_chat_body]
  rw [if_neg (strToBytes_ne_nil _ (by
    rw [String.data_append]
    intro hc
    rcases List.append_eq_nil.mp hc with ⟨h1, _⟩
    exact absurd h1 (by decide)))]
  rw [strToBytes_decode]
  dsimp only
  rw [cpsToString_toNat]
  rw [if_pos (pyStartsWith_data_append "data: " p)]
  rw [pyDrop_data_front]
  rw [if_neg (by
    intro hEq
    rw [hEq] at hp
    rw [show jsonParse "[DONE]" = none from rfl] at hp
    cases hp)]
  rw [hp]
  dsimp only
  rw [he]
  dsimp only
  rw [if_neg hn]

/-- The `[DONE]` sentinel terminates the stream. -/
theorem stream_chat_body_done (rest : List (List Nat)) :
    stream_chat_body (strToBytes "data: [DONE]" :: rest) = [] := by
  rw [stream_chat_body]
  rw [if_neg (strToBytes_ne_nil _ (by decide))]
  rw [strToBytes_decode]
  dsimp only
  rw [cpsToString_toNat]
  rw [if_pos (by decide : pyStartsWith "data: [DONE]" "data: " = true)]
  rw [if_pos (by decide : pyStrip (pyDrop "data: [DONE]" 6) = "[DONE]")]

/-- C6 (amended): an SSE body of two `data: ` lines, each carrying a
delta with a **non-empty string** content, followed by the `[DONE]`
sentinel, makes `stream_chat` yield exactly the two delta contents in
receipt order and terminate cleanly (no exception: the result is `some`). -/
theorem claim_C6_two_deltas (p1 p2 c1 c2 : String) (j1 j2 : Json)
    (h1 : jsonParse (pyStrip p1) = some j1)
    (e1 : extractDeltaContent j1 = some c1) (n1 : c1 ≠ "")
    (h2 : jsonParse (pyStrip p2) = some j2)
    (e2 : extractDeltaContent j2 = some c2) (n2 : c2 ≠ "") :
    stream_chat (.ok [strToBytes ("data: " ++ p1), strToBytes ("data: " ++ p2),
                      strToBytes "data: [DONE]"]) = some [c1, c2] := by
  unfold stream_chat
  dsimp only
  rw [stream_chat_body_content_line p1 c1 j1 _ h1 e1 n1,
      stream_chat_body_content_line p2 c2 j2 _ h2 e2 n2,
      stream_chat_body_done]

/-- Witness for C6 (amended) at two concrete chunk payloads. -/
theorem claim_C6_witness :
    stream_chat (.ok
      [strToBytes ("data: " ++ "\x7b\"choices\":[\x7b\"delta\":\x7b\"content\":\"Hello\"\x7d\x7d]\x7d"),
       strToBytes ("data: " ++ "\x7b\"choices\":[\x7b\"delta\":\x7b\"content\":\" world\"\x7d\x7d]\x7d"),
       strToBytes "data: [DONE]"]) = some ["Hello", " world"] :=
  claim_C6_two_deltas
    "\x7b\"choices\":[\x7b\"delta\":\x7b\"content\":\"Hello\"\x7d\x7d]\x7d"
    "\x7b\"choices\":[\x7b\"delta\":\x7b\"content\":\" world\"\x7d\x7d]\x7d"
    "Hello" " world"
    (Json.obj [("choices", Json.arr [Json.obj [("delta", Json.obj [("content", Json.str "Hello")])]])])
    (Json.obj [("choices", Json.arr [Json.obj [("delta", Json.obj [("content", Json.str " world")])]])])
    (by rfl) (by rfl) (by decide) (by rfl) (by rfl) (by decide)

/-- C6 counterexample: two `data: ` lines each carrying a delta with a
content field — the second content being the empty string — followed by
`[DONE]`: the client yields exactly **one** chunk, not two, because an
empty (falsy) content is skipped. -/
theorem claim_C6_counterexample :
    stream_chat_body
      [strToBytes "data: \x7b\"choices\":[\x7b\"delta\":\x7b\"content\":\"x\"\x7d\x7d]\x7d",
       strToBytes "data: \x7b\"choices\":[\x7b\"delta\":\x7b\"content\":\"\"\x7d\x7d]\x7d",
       strToBytes "data: [DONE]"] = ["x"] ∧
    ([("x" : String)]).length ≠ 2 := by
  constructor
  · rfl
  · decide

/-! ## C5: the assembled prompt renders each input file exactly once -/

theorem scontains_iff (l : List String) (x : String) : l.contains x = true ↔ x ∈ l := by
  simp [List.contains]

theorem mem_insertSet (s : List String) (y x : String) :
    x ∈ insertSet s y ↔ x ∈ s ∨ x = y := by
  unfold insertSet
  split
  · rename_i hc
    rw [scontains_iff] at hc
    constructor
    · exact Or.inl
    · rintro (h | rfl)
      · exact h
      · exact hc
  · simp

theorem orderedNames_sub {st st' : VisitState}
    (h : ∃ add, st'.ordered = st.ordered ++ add) :
    ∀ x, x ∈ orderedNames st → x ∈ orderedNames st' := by
  obtain ⟨add, ha⟩ := h
  intro x hx
  unfold orderedNames at *
  rw [ha, List.map_append]
  exact List.mem_append_left _ hx

theorem VisitSpec_refl (cc : List CodeFile) (st : VisitState) : VisitSpec cc st st :=
  ⟨⟨[], (List.append_nil _).symm⟩, fun _ h => h, fun _ h => h, fun _ h => h,
   fun x h => Or.inl h, fun x h => Or.inl h, id⟩

theorem VisitSpec_trans (cc : List CodeFile) (st st' st'' : VisitState)
    (h1 : VisitSpec cc st st') (h2 : VisitSpec cc st' st'') : VisitSpec cc st st'' := by
  obtain ⟨⟨a1, ha1⟩, hb1, hc1, hcc1, he1, hf1, hok1⟩ := h1
  obtain ⟨⟨a2, ha2⟩, hb2, hc2, hcc2, he2, hf2, hok2⟩ := h2
  refine ⟨⟨a1 ++ a2, by rw [ha2, ha1, List.append_assoc]⟩,
          fun x h => hb2 x (hb1 x h), fun x h => hc1 x (hc2 x h),
          fun x h => hcc2 x (hcc1 x h), ?_, ?_, fun h => hok2 (hok1 h)⟩
  · intro x h
    rcases he2 x h with h' | h' | h'
    · rcases he1 x h' with h'' | h'' | h''
      · exact Or.inl h''
      · exact Or.inr (Or.inl (orderedNames_sub ⟨a2, ha2⟩ x h''))
      · exact Or.inr (Or.inr h'')
    · exact Or.inr (Or.inl h')
    · exact Or.inr (Or.inr (hc1 x h'))
  · intro x h
    rcases hf2 x h with h' | h'
    · exact hf1 x h'
    · right
      constructor
      · intro hx
        rcases hcc1 x (Or.inl hx) with h'' | h''
        · exact h'.1 h''
        · exact h'.2 h''
      · intro hx
        rcases hcc1 x (Or.inr hx) with h'' | h''
        · exact h'.1 h''
        · exact h'.2 h''

theorem dedupFirstAux_sub : ∀ (fuel : Nat) (l : List String) (x : String),
    x ∈ dedupFirstAux fuel l → x ∈ l := by
  intro fuel
  induction fuel with
  | zero => intro l x hx; cases l <;> simpa [dedupFirstAux] using hx
  | succ fuel ih =>
    intro l x hx
    cases l with
    | nil => simpa [dedupFirstAux] using hx
    | cons a as =>
      simp only [dedupFirstAux, List.mem_cons] at hx
      rcases hx with rfl | hx
      · exact List.mem_cons_self _ _
      · exact List.mem_cons_of_mem _ (List.mem_of_mem_filter (ih _ _ hx))

theorem visitCandidates_sub (cc : List CodeFile) (f g : String)
    (hg : g ∈ visitCandidates cc f) : g ∈ cc.map (·.filename) := by
  unfold visitCandidates at hg
  rw [List.mem_flatten] at hg
  obtain ⟨l, hl, hgl⟩ := hg
  rw [List.mem_map] at hl
  obtain ⟨dep, _, rfl⟩ := hl
  exact dedupFirstAux_sub _ _ _ (List.mem_of_mem_filter hgl)

theorem find_by_name (cc : List CodeFile) (f : String)
    (hf : f ∈ cc.map (·.filename)) :
    ∃ item, cc.find? (fun i => i.filename = f) = some item ∧ item.filename = f := by
  have hs : (cc.find? (fun i => i.filename = f)).isSome := by
    rw [List.find?_isSome]
    rw [List.mem_map] at hf
    obtain ⟨it, hit, hfn⟩ := hf
    exact ⟨it, hit, by simp [hfn]⟩
  cases hfd : cc.find? (fun i => i.filename = f) with
  | none => rw [hfd] at hs; simp at hs
  | some item =>
    refine ⟨item, rfl, ?_⟩
    have := List.find?_some hfd
    simpa using this

theorem find_first_of_nodup : ∀ (cc : List CodeFile) (a : CodeFile),
    (cc.map (·.filename)).Nodup → a ∈ cc →
    cc.find? (fun i => i.filename = a.filename) = some a := by
  intro cc
  induction cc with
  | nil => intro a _ ha; simp at ha
  | cons b rest ih =>
    intro a hnd ha
    rw [List.map_cons, List.nodup_cons] at hnd
    rcases List.mem_cons.mp ha with rfl | ha'
    · rw [List.find?_cons_of_pos _ (by simp)]
    · have hne : b.filename ≠ a.filename := by
        intro he
        exact hnd.1 (he ▸ List.mem_map_of_mem (·.filename) ha')
      rw [List.find?_cons_of_neg _ (by simpa using hne)]
      exact ih a hnd.2 ha'

theorem mem_filter_ne (l : List String) (f x : String) :
    x ∈ l.filter (· ≠ f) ↔ x ∈ l ∧ x ≠ f := by
  simp [List.mem_filter]

/-- The seven `VisitSpec` obligations for the main branch of `visit`,
abstracted over whether the ordered-list append fired (`add2 = []` when
the filename was already present, `[item]` when it was appended). -/
theorem mainBranchSpec (cc : List CodeFile) (f : String) (st st2 : VisitState)
    (add2 : List CodeFile)
    (hS12 : VisitSpec cc { st with visiting := insertSet st.visiting f } st2)
    (hvd : f ∉ st.visited) (hvg : f ∉ st.visiting)
    (st' : VisitState)
    (hordered : st'.ordered = st2.ordered ++ add2)
    (hvisiting : st'.visiting = st2.visiting.filter (· ≠ f))
    (hvisited : st'.visited = insertSet st2.visited f)
    (hford : f ∈ orderedNames st')
    (hadd2 : ∀ e ∈ add2, e.filename = f ∧ cc.find? (fun i => i.filename = e.filename) = some e)
    (hcase : add2 = [] ∨ (add2.map (·.filename) = [f] ∧ f ∉ orderedNames st2)) :
    VisitSpec cc st st' := by
  obtain ⟨⟨add, hadd⟩, hb, hc, hcc2, he, hfnames, hok⟩ := hS12
  have hostn : ∀ x, x ∈ orderedNames st' ↔ x ∈ orderedNames st2 ∨ x ∈ add2.map (·.filename) := by
    intro x
    unfold orderedNames
    rw [hordered, List.map_append, List.mem_append]
  refine ⟨⟨add ++ add2, by rw [hordered, hadd, List.append_assoc]⟩, ?_, ?_, ?_, ?_, ?_, ?_⟩
  · intro x hx
    rw [hvisited, mem_insertSet]
    exact Or.inl (hb x hx)
  · intro x hx
    rw [hvisiting, mem_filter_ne] at hx
    have h1 := hc x hx.1
    rcases (mem_insertSet _ _ _).mp h1 with h | rfl
    · exact h
    · exact absurd rfl hx.2
  · intro x hx
    have hx1 : x ∈ ({ st with visiting := insertSet st.visiting f } : VisitState).visited ∨
        x ∈ ({ st with visiting := insertSet st.visiting f } : VisitState).visiting := by
      rcases hx with h | h
      · exact Or.inl h
      · exact Or.inr ((mem_insertSet _ _ _).mpr (Or.inl h))
    rcases hcc2 x hx1 with h | h
    · rw [hvisited]
      exact Or.inl ((mem_insertSet _ _ _).mpr (Or.inl h))
    · by_cases hxf : x = f
      · rw [hvisited]
        exact Or.inl ((mem_insertSet _ _ _).mpr (Or.inr hxf))
      · rw [hvisiting]
        exact Or.inr ((mem_filter_ne _ _ _).mpr ⟨h, hxf⟩)
  · intro x hx
    rw [hvisited, mem_insertSet] at hx
    rcases hx with hx | rfl
    · rcases he x hx with h | h | h
      · exact Or.inl h
      · exact Or.inr (Or.inl ((hostn x).mpr (Or.inl h)))
      · rcases (mem_insertSet _ _ _).mp h with h' | rfl
        · exact Or.inr (Or.inr h')
        · exact Or.inr (Or.inl hford)
    · exact Or.inr (Or.inl hford)
  · intro x hx
    rcases (hostn x).mp hx with h | h
    · rcases hfnames x h with h' | h'
      · exact Or.inl h'
      · exact Or.inr ⟨h'.1, fun hxv => h'.2 ((mem_insertSet _ _ _).mpr (Or.inl hxv))⟩
    · rcases hcase with rfl | ⟨hmap, _⟩
      · simp at h
      · rw [hmap] at h
        rcases List.mem_singleton.mp h with rfl
        exact Or.inr ⟨hvd, hvg⟩
  · intro hst
    have hst2ok : StateOk cc st2 := hok hst
    constructor
    · have hon : orderedNames st' = orderedNames st2 ++ add2.map (·.filename) := by
        unfold orderedNames
        rw [hordered, List.map_append]
      rw [hon]
      rcases hcase with rfl | ⟨hmap, hnotin⟩
      · simpa using hst2ok.1
      · rw [hmap]
        refine List.Nodup.append hst2ok.1 (List.nodup_singleton f) ?_
        intro a ha hb'
        rw [List.mem_singleton] at hb'
        subst hb'
        exact hnotin ha
    · intro e he'
      rw [hordered] at he'
      rcases List.mem_append.mp he' with h | h
      · exact hst2ok.2 e h
      · exact (hadd2 e h).2

/-- Behaviour of one `visit(filename)` call and of the candidate loop, by
induction on the fuel: state evolution satisfies `VisitSpec`, and with
positive fuel the visited file ends up ordered, currently-in-progress, or
previously visited. -/
theorem visit_spec (cc : List CodeFile) : ∀ fuel : Nat,
    (∀ f st, f ∈ cc.map (·.filename) →
      VisitSpec cc st (visitFile cc fuel f st) ∧
      (1 ≤ fuel → f ∈ orderedNames (visitFile cc fuel f st) ∨ f ∈ st.visiting ∨ f ∈ st.visited)) ∧
    (∀ gs st, (∀ g, g ∈ gs → g ∈ cc.map (·.filename)) →
      VisitSpec cc st (visitList cc fuel gs st)) := by
  intro fuel
  induction fuel with
  | zero =>
    constructor
    · intro f st _
      exact ⟨VisitSpec_refl cc st, fun h => absurd h (by omega)⟩
    · intro gs st _
      cases gs with
      | nil => exact VisitSpec_refl cc st
      | cons g gs => exact VisitSpec_refl cc st
  | succ fuel ih =>
    obtain ⟨ihf, ihl⟩ := ih
    constructor
    · intro f st hf
      by_cases hvd : st.visited.contains f = true
      · have hres : visitFile cc (fuel + 1) f st = st := by
          rw [visitFile, if_pos hvd]
        rw [hres]
        exact ⟨VisitSpec_refl cc st, fun _ => Or.inr (Or.inr ((scontains_iff _ _).mp hvd))⟩
      · by_cases hvg : st.visiting.contains f = true
        · have hres : visitFile cc (fuel + 1) f st =
              { st with visiting := st.visiting.filter (· ≠ f),
                        visited := insertSet st.visited f } := by
            rw [visitFile, if_neg hvd, if_pos hvg]
          rw [hres]
          have hfvg : f ∈ st.visiting := (scontains_iff _ _).mp hvg
          constructor
          · refine ⟨⟨[], (List.append_nil _).symm⟩, ?_, ?_, ?_, ?_, ?_, ?_⟩
            · intro x hx
              exact (mem_insertSet _ _ _).mpr (Or.inl hx)
            · intro x hx
              exact ((mem_filter_ne _ _ _).mp hx).1
            · intro x hx
              rcases hx with h | h
              · exact Or.inl ((mem_insertSet _ _ _).mpr (Or.inl h))
              · by_cases hxf : x = f
                · exact Or.inl ((mem_insertSet _ _ _).mpr (Or.inr hxf))
                · exact Or.inr ((mem_filter_ne _ _ _).mpr ⟨h, hxf⟩)
            · intro x hx
              rcases (mem_insertSet _ _ _).mp hx with h | rfl
              · exact Or.inl h
              · exact Or.inr (Or.inr hfvg)
            · intro x hx
              exact Or.inl hx
            · exact fun h => h
          · intro _
            exact Or.inr (Or.inl hfvg)
        · obtain ⟨item, hfd, hitf⟩ := find_by_name cc f hf
          have hres : visitFile cc (fuel + 1) f st =
              (let st2 := visitList cc fuel (visitCandidates cc f)
                  { st with visiting := insertSet st.visiting f }
               if (st2.ordered.map (·.filename)).contains f = true then
                 { st2 with visiting := st2.visiting.filter (· ≠ f),
                            visited := insertSet st2.visited f }
               else
                 { visited := insertSet st2.visited f,
                   visiting := st2.visiting.filter (· ≠ f),
                   ordered := st2.ordered ++ [item] }) := by
            rw [visitFile, if_neg hvd, if_neg hvg]
            dsimp only
            rw [hfd]
          rw [hres]
          dsimp only
          set st2 := visitList cc fuel (visitCandidates cc f)
              { st with visiting := insertSet st.visiting f } with hst2
          have hS12 : VisitSpec cc { st with visiting := insertSet st.visiting f } st2 := by
            rw [hst2]
            exact ihl _ _ (fun g hg => visitCandidates_sub cc f g hg)
          have hvd' : f ∉ st.visited := fun h => hvd ((scontains_iff _ _).mpr h)
          have hvg' : f ∉ st.visiting := fun h => hvg ((scontains_iff _ _).mpr h)
          by_cases hco : (st2.ordered.map (·.filename)).contains f = true
          · rw [if_pos hco]
            have hford : f ∈ orderedNames
                ({ st2 with visiting := st2.visiting.filter (· ≠ f),
                            visited := insertSet st2.visited f } : VisitState) :=
              (scontains_iff _ _).mp hco
            refine ⟨mainBranchSpec cc f st st2 [] hS12 hvd' hvg' _
                (List.append_nil _).symm rfl rfl hford ?_ (Or.inl rfl),
              fun _ => Or.inl hford⟩
            intro e he
            simp at he
          · rw [if_neg hco]
            have hford : f ∈ orderedNames
                ({ visited := insertSet st2.visited f,
                   visiting := st2.visiting.filter (· ≠ f),
                   ordered := st2.ordered ++ [item] } : VisitState) := by
              unfold orderedNames
              dsimp only
              rw [List.map_append, List.mem_append]
              right
              exact List.mem_singleton.mpr hitf.symm
            refine ⟨mainBranchSpec cc f st st2 [item] hS12 hvd' hvg' _
                rfl rfl rfl hford ?_
                (Or.inr ⟨by simp [hitf], fun h => hco ((scontains_iff _ _).mpr h)⟩),
              fun _ => Or.inl hford⟩
            intro e he
            rw [List.mem_singleton] at he
            subst he
            refine ⟨hitf, ?_⟩
            rw [hitf]
            exact hfd
    · intro gs st hgs
      cases gs with
      | nil => exact VisitSpec_refl cc st
      | cons g gs =>
        have hres : visitList cc (fuel + 1) (g :: gs) st =
            visitList cc fuel gs (if st.visited.contains g = true then st
              else visitFile cc fuel g st) := by
          rw [visitList]
        rw [hres]
        refine VisitSpec_trans cc st _ _ ?_
          (ihl gs _ (fun x hx => hgs x (List.mem_cons_of_mem _ hx)))
        by_cases hv : st.visited.contains g = true
        · rw [if_pos hv]
          exact VisitSpec_refl cc st
        · rw [if_neg hv]
          exact (ihf g st (hgs g (List.mem_cons_self _ _))).1

/-- One top-level `visit(filename)` call preserves the loop invariant,
only appends to `ordered`, and puts `f` into the ordered names. -/
theorem topStep (cc : List CodeFile) (fuel : Nat) (hfuel : 1 ≤ fuel) (f : String)
    (hf : f ∈ cc.map (·.filename)) (st : VisitState) (hinv : TopInv cc st) :
    TopInv cc (visitFile cc fuel f st) ∧
    (∃ add, (visitFile cc fuel f st).ordered = st.ordered ++ add) ∧
    f ∈ orderedNames (visitFile cc fuel f st) := by
  obtain ⟨hS, hg⟩ := (visit_spec cc fuel).1 f st hf
  obtain ⟨⟨add, hadd⟩, hb, hc, hcc', he, hfn, hok⟩ := hS
  obtain ⟨hvg, hvis, hsok⟩ := hinv
  refine ⟨⟨?_, ?_, hok hsok⟩, ⟨add, hadd⟩, ?_⟩
  · refine List.eq_nil_iff_forall_not_mem.mpr ?_
    intro x hx
    have h1 := hc x hx
    rw [hvg] at h1
    simp at h1
  · intro x hx
    rcases he x hx with h | h | h
    · exact orderedNames_sub ⟨add, hadd⟩ x (hvis x h)
    · exact h
    · rw [hvg] at h
      simp at h
  · rcases hg hfuel with h | h | h
    · exact h
    · rw [hvg] at h
      simp at h
    · exact orderedNames_sub ⟨add, hadd⟩ f (hvis f h)

/-- The whole `for filename in import_map:` loop keeps the invariant and
ends with every processed filename in `ordered`. -/
theorem topFold (cc : List CodeFile) (fuel : Nat) (hfuel : 1 ≤ fuel) :
    ∀ (l : List CodeFile) (st : VisitState),
    (∀ a ∈ l, a.filename ∈ cc.map (·.filename)) → TopInv cc st →
    TopInv cc (l.foldl (fun s item => visitFile cc fuel item.filename s) st) ∧
    (∃ add, (l.foldl (fun s item => visitFile cc fuel item.filename s) st).ordered
        = st.ordered ++ add) ∧
    (∀ a ∈ l, a.filename ∈
        orderedNames (l.foldl (fun s item => visitFile cc fuel item.filename s) st)) := by
  intro l
  induction l with
  | nil =>
    intro st _ hinv
    refine ⟨hinv, ⟨[], (List.append_nil _).symm⟩, ?_⟩
    intro a ha
    simp at ha
  | cons a l ihl =>
    intro st hl hinv
    have hstep := topStep cc fuel hfuel a.filename (hl a (List.mem_cons_self _ _)) st hinv
    rw [List.foldl_cons]
    have hrest := ihl (visitFile cc fuel a.filename st)
      (fun b hb => hl b (List.mem_cons_of_mem _ hb)) hstep.1
    refine ⟨hrest.1, ?_, ?_⟩
    · obtain ⟨add1, h1⟩ := hstep.2.1
      obtain ⟨add2, h2⟩ := hrest.2.1
      exact ⟨add1 ++ add2, by rw [h2, h1, List.append_assoc]⟩
    · intro b hb
      rcases List.mem_cons.mp hb with rfl | hb'
      · exact orderedNames_sub hrest.2.1 _ hstep.2.2
      · exact hrest.2.2 b hb'

/-- When all filenames are distinct, `detect_dependencies` permutes its
input: every file appears exactly once in the result. -/
theorem detect_dependencies_perm (cc : List CodeFile)
    (hnd : (cc.map (·.filename)).Nodup) : (detect_dependencies cc).Perm cc := by
  by_cases hcc : cc = []
  · subst hcc
    rw [detect_dependencies]
    simp
  · unfold detect_dependencies
    rw [if_neg hcc]
    dsimp only
    have hfuel : 1 ≤ visitFuelBound cc := by
      unfold visitFuelBound
      omega
    have hinv0 : TopInv cc ⟨[], [], []⟩ :=
      ⟨rfl, fun x hx => absurd hx (by simp),
       by simp [StateOk, orderedNames], fun e he => absurd he (by simp)⟩
    have hfold := topFold cc (visitFuelBound cc) hfuel cc ⟨[], [], []⟩
      (fun a ha => List.mem_map_of_mem _ ha) hinv0
    set final := cc.foldl
      (fun st item => visitFile cc (visitFuelBound cc) item.filename st) ⟨[], [], []⟩
      with hfinal
    have hne : final.ordered = [] → False := by
      intro h0
      obtain ⟨b, hb⟩ := List.exists_mem_of_ne_nil cc hcc
      have hbn := hfold.2.2 b hb
      unfold orderedNames at hbn
      rw [h0] at hbn
      simp at hbn
    rw [if_neg hne]
    have hfinOk : StateOk cc final := hfold.1.2.2
    have hndOrd : final.ordered.Nodup := List.Nodup.of_map _ hfinOk.1
    have hccnd : cc.Nodup := List.Nodup.of_map _ hnd
    rw [List.perm_ext_iff_of_nodup hndOrd hccnd]
    intro a
    constructor
    · intro ha
      exact List.mem_of_find?_eq_some (hfinOk.2 a ha)
    · intro ha
      have hnm := hfold.2.2 a ha
      unfold orderedNames at hnm
      rw [List.mem_map] at hnm
      obtain ⟨e, he, hef⟩ := hnm
      have h1 := hfinOk.2 e he
      have h2 := find_first_of_nodup cc a hnd ha
      rw [hef] at h1
      rw [h1] at h2
      rcases Option.some.inj h2 with rfl
      exact he

theorem insertDesc_perm (x : Int × CodeFile) (l : List (Int × CodeFile)) :
    (insertDesc x l).Perm (x :: l) := by
  induction l with
  | nil => exact List.Perm.refl _
  | cons y ys ih =>
    rw [insertDesc]
    split
    · exact (ih.cons y).trans (List.Perm.swap x y ys)
    · exact List.Perm.refl _

theorem sortScoredDesc_perm (l : List (Int × CodeFile)) :
    (sortScoredDesc l).Perm l := by
  induction l with
  | nil => exact List.Perm.refl _
  | cons x xs ih =>
    rw [sortScoredDesc]
    exact (insertDesc_perm x (sortScoredDesc xs)).trans (ih.cons x)

theorem map_snd_pairScore (cc : List CodeFile) :
    List.map ((fun x : Int × CodeFile => x.2) ∘ fun i => (priorityScore i, i)) cc = cc := by
  induction cc with
  | nil => rfl
  | cons a l ih =>
    rw [List.map_cons, ih]
    rfl

theorem prioritize_files_perm (cc : List CodeFile) : (prioritize_files cc).Perm cc := by
  unfold prioritize_files
  split
  · rename_i h
    rw [h]
  · have h2 := (sortScoredDesc_perm (cc.map (fun i => (priorityScore i, i)))).map (·.2)
    rw [List.map_map] at h2
    rw [map_snd_pairScore] at h2
    exact h2

theorem orderedContents_perm (cc : List CodeFile)
    (hnd : (cc.map (·.filename)).Nodup) : (orderedContents cc).Perm cc := by
  unfold orderedContents
  have hp := prioritize_files_perm cc
  have hnd' : ((prioritize_files cc).map (·.filename)).Nodup :=
    (hp.map (·.filename)).nodup_iff.mpr hnd
  exact (detect_dependencies_perm _ hnd').trans hp

theorem pyIn_decomp (n hay : String) (pre suf : List Char)
    (h : hay.data = pre ++ (n.data ++ suf)) : pyIn n hay = true := by
  unfold pyIn
  rw [h]
  exact listHasSub_append _ _ _

theorem strConcat_data_mem (l : List CodeFile) (item : CodeFile) (h : item ∈ l) :
    ∃ pre suf : List Char,
      (strConcat (l.map fileBlock)).data = pre ++ ((fileBlock item).data ++ suf) := by
  induction l with
  | nil => cases h
  | cons a t ih =>
    rcases List.mem_cons.mp h with rfl | h'
    · refine ⟨[], (strConcat (t.map fileBlock)).data, ?_⟩
      show (fileBlock item ++ strConcat (t.map fileBlock)).data = _
      rw [String.data_append, List.nil_append]
    · obtain ⟨pre, suf, hps⟩ := ih h'
      refine ⟨(fileBlock a).data ++ pre, suf, ?_⟩
      show (fileBlock a ++ strConcat (t.map fileBlock)).data = _
      rw [String.data_append, hps, List.append_assoc]

/-- C5 (amended): with pairwise-distinct filenames, whenever the
assembler returns a prompt it renders exactly the input files: the
rendering order is a permutation of the input (each file exactly once),
the header, manifest and file blocks traverse that same ordered list, and
each file's content appears verbatim in the prompt. -/
theorem claim_C5_amended (code_contents : List CodeFile) (warnings : List String)
    (review_context : List (String × String)) (p : String)
    (hnd : (code_contents.map (·.filename)).Nodup)
    (hp : construct_user_prompt code_contents warnings review_context = some p) :
    (orderedContents code_contents).Perm code_contents ∧
    (∀ item ∈ code_contents, (orderedContents code_contents).count item = 1) ∧
    (∃ hdr, promptHeader code_contents warnings review_context = some hdr ∧
      p = hdr ++ manifestSection (orderedContents code_contents) ++
        filesSection (orderedContents code_contents)) ∧
    filesSection (orderedContents code_contents) =
      strConcat ((orderedContents code_contents).map fileBlock) ∧
    ∀ item ∈ code_contents, pyIn item.content p = true := by
  have hperm := orderedContents_perm code_contents hnd
  have hccnd : code_contents.Nodup := List.Nodup.of_map _ hnd
  have hex : ∃ hdr, promptHeader code_contents warnings review_context = some hdr ∧
      p = hdr ++ manifestSection (orderedContents code_contents) ++
        filesSection (orderedContents code_contents) := by
    unfold construct_user_prompt at hp
    cases hph : promptHeader code_contents warnings review_context with
    | none =>
      rw [hph] at hp
      simp at hp
    | some hdr =>
      rw [hph] at hp
      dsimp only at hp
      exact ⟨hdr, rfl, (Option.some.inj hp).symm⟩
  obtain ⟨hdr, hph, hpe⟩ := hex
  refine ⟨hperm, ?_, ⟨hdr, hph, hpe⟩, rfl, ?_⟩
  · intro item hitem
    rw [hperm.count_eq]
    exact List.count_eq_one_of_mem hccnd hitem
  · intro item hitem
    have hmem : item ∈ orderedContents code_contents := hperm.mem_iff.mpr hitem
    obtain ⟨pre, suf, hps⟩ := strConcat_data_mem (orderedContents code_contents) item hmem
    rw [hpe]
    refine pyIn_decomp _ _
      (hdr.data ++ (manifestSection (orderedContents code_contents)).data ++ pre ++
        "### FILE: ".data ++ item.filename.data ++ "\n\n".data ++ "```\n".data)
      ("\n```\n\n".data ++ suf) ?_
    simp only [filesSection, String.data_append, List.append_assoc]
    rw [hps]
    simp only [fileBlock, String.data_append, List.append_assoc]

set_option maxRecDepth 40000 in
/-- C5 counterexample: two distinct input files sharing the filename
`a.py` — the assembler renders only the first, and the second file's
content occurs nowhere in the (successfully assembled) prompt; and on the
pairwise-distinct filenames `x.py` and `x.py/y.py` the file-tree build
descends into the file entry `x.py` and raises `TypeError`, so no prompt
is produced at all. -/
theorem claim_C5_counterexample :
    orderedContents [⟨"a.py", "0123456789x"⟩, ⟨"a.py", "0123456789y"⟩]
      = [⟨"a.py", "0123456789x"⟩] ∧
    (orderedContents [⟨"a.py", "0123456789x"⟩, ⟨"a.py", "0123456789y"⟩]).count
      (⟨"a.py", "0123456789y"⟩ : CodeFile) = 0 ∧
    (construct_user_prompt
        [⟨"a.py", "0123456789x"⟩, ⟨"a.py", "0123456789y"⟩] [] []).isSome = true ∧
    pyIn "0123456789y" ((construct_user_prompt
        [⟨"a.py", "0123456789x"⟩, ⟨"a.py", "0123456789y"⟩] [] []).getD "") = false ∧
    construct_user_prompt [⟨"x.py", "0123456789x"⟩, ⟨"x.py/y.py", "0123456789y"⟩] [] []
      = none :=
  ⟨by decide, by decide, by decide, by decide, by decide⟩

set_option maxRecDepth 40000 in
/-- Witness for C5: a concrete two-file input with distinct names
satisfies both hypotheses (the assembly succeeds), and its rendering
order is a permutation of the input. -/
theorem claim_C5_witness :
    ((([⟨"a.py", "x"⟩, ⟨"b.py", "y"⟩] : List CodeFile).map (·.filename)).Nodup ∧
      (construct_user_prompt [⟨"a.py", "x"⟩, ⟨"b.py", "y"⟩] [] []).isSome = true) ∧
    (orderedContents [⟨"a.py", "x"⟩, ⟨"b.py", "y"⟩]).Perm
      [⟨"a.py", "x"⟩, ⟨"b.py", "y"⟩] :=
  ⟨⟨by decide, by decide⟩,
   (claim_C5_amended [⟨"a.py", "x"⟩, ⟨"b.py", "y"⟩] [] []
      ((construct_user_prompt [⟨"a.py", "x"⟩, ⟨"b.py", "y"⟩] [] []).get (by decide))
      (by decide) (Option.some_get (by decide)).symm).1⟩

/-! ## C8: prompt assembly is deterministic -/

/-- C8: the prompt assembler is a pure function of its three inputs:
byte-identical `code_contents`, `warnings` and `review_context` give a
byte-identical prompt (no randomness and no clock dependence occur
anywhere in the embedding of `construct_user_prompt`). -/
theorem claim_C8_deterministic (c1 c2 : List CodeFile) (w1 w2 : List String)
    (r1 r2 : List (String × String)) (hc : c1 = c2) (hw : w1 = w2) (hr : r1 = r2) :
    construct_user_prompt c1 w1 r1 = construct_user_prompt c2 w2 r2 := by
  rw [hc, hw, hr]

/-- Witness for C8 at a concrete input. -/
theorem claim_C8_witness :
    construct_user_prompt [⟨"a.py", "print(1)"⟩] ["w"] [("focus", "bugs")] =
      construct_user_prompt [⟨"a.py", "print(1)"⟩] ["w"] [("focus", "bugs")] :=
  claim_C8_deterministic _ _ _ _ _ _ rfl rfl rfl
